import Mathlib

/-!
Shallow embedding of the enrichment/classification pipeline of
`step1_json.py` and `step2.7.py`, together with proofs settling the
frozen claims about it.

Python values flowing through the pipeline are modelled by the inductive
type `J` below (JSON-like: objects carry string keys, numbers are
integers — the status codes, scores and ids the claims are about are all
integers).  Python dict lookup, truthiness, `or`, `str()` and the small
regular expressions the code uses are modelled explicitly.  Fallible code
(places where the Python source can raise) is modelled in the `Option`
monad: `none` means the Python code raises.
-/

/-- Model of a Python/JSON value as used by the pipeline. -/
inductive J where
  | null : J
  | bool (b : Bool) : J
  | num (n : Int) : J
  | str (s : String) : J
  | arr (xs : List J) : J
  | obj (kvs : List (String × J)) : J

mutual

/-- Structural equality test on `J` (no deriving handler exists for the
nested positions, so it is spelled out as a mutual recursion). -/
def jeq : J → J → Bool
  | .null, .null => true
  | .bool a, .bool b => a == b
  | .num a, .num b => a == b
  | .str a, .str b => a == b
  | .arr a, .arr b => jeqL a b
  | .obj a, .obj b => jeqF a b
  | _, _ => false

/-- Elementwise equality test on lists of values. -/
def jeqL : List J → List J → Bool
  | [], [] => true
  | a :: as, b :: bs => jeq a b && jeqL as bs
  | _, _ => false

/-- Elementwise equality test on association lists. -/
def jeqF : List (String × J) → List (String × J) → Bool
  | [], [] => true
  | (k₁, v₁) :: as, (k₂, v₂) :: bs => k₁ == k₂ && jeq v₁ v₂ && jeqF as bs
  | _, _ => false

end

mutual

theorem jeq_iff_eq : ∀ a b : J, jeq a b = true ↔ a = b
  | .null, b => by cases b <;> simp [jeq]
  | .bool _, b => by cases b <;> simp [jeq]
  | .num _, b => by cases b <;> simp [jeq]
  | .str _, b => by cases b <;> simp [jeq]
  | .arr xs, b => by
      cases b <;> simp [jeq]
      exact jeqL_iff_eq xs _
  | .obj kvs, b => by
      cases b <;> simp [jeq]
      exact jeqF_iff_eq kvs _

theorem jeqL_iff_eq : ∀ xs ys : List J, jeqL xs ys = true ↔ xs = ys
  | [], ys => by cases ys <;> simp [jeqL]
  | x :: xs, ys => by
      cases ys with
      | nil => simp [jeqL]
      | cons y ys => simp [jeqL, jeq_iff_eq x y, jeqL_iff_eq xs ys]

theorem jeqF_iff_eq : ∀ xs ys : List (String × J), jeqF xs ys = true ↔ xs = ys
  | [], ys => by cases ys <;> simp [jeqF]
  | (k, v) :: xs, ys => by
      cases ys with
      | nil => simp [jeqF]
      | cons y ys =>
        obtain ⟨k₂, v₂⟩ := y
        simp [jeqF, jeq_iff_eq v v₂, jeqF_iff_eq xs ys, and_assoc]

end

instance : DecidableEq J := fun a b => decidable_of_iff (jeq a b = true) (jeq_iff_eq a b)

/-- Python truthiness of a value (`None`, `False`, `0`, `""`, `[]`, `{}` are falsy). -/
def J.truthy : J → Bool
  | .null => false
  | .bool b => b
  | .num n => n != 0
  | .str s => s != ""
  | .arr xs => !xs.isEmpty
  | .obj kvs => !kvs.isEmpty

/-- First-match lookup in an association list (Python dict keys are unique,
so first-match agrees with dict lookup). -/
def jLook : List (String × J) → String → Option J
  | [], _ => none
  | (k, v) :: rest, key => if k = key then some v else jLook rest key

/-- Python `d.get(k)`: the stored value, or `None` when the key is absent. -/
def pyGet (kvs : List (String × J)) (k : String) : J :=
  (jLook kvs k).getD J.null

/-- Python `d.get(k, dflt)`: the stored value (even when it is `None`), or
`dflt` when the key is absent. -/
def pyGetD (kvs : List (String × J)) (k : String) (dflt : J) : J :=
  (jLook kvs k).getD dflt

/-- Python `a or b` on values. -/
def pyOr (a b : J) : J := if a.truthy then a else b

/-- Python `a or b` where evaluating `b` may raise (`none` = raises); the
second operand is only forced when `a` is falsy. -/
def pyOrM (a : J) (b : Option J) : Option J :=
  if a.truthy then some a else b

/-- View a value as a dict; `none` models an `AttributeError`/`TypeError`
raised by calling a dict method on a non-dict. -/
def asObj : J → Option (List (String × J))
  | .obj kvs => some kvs
  | _ => none

/-- Decimal value of a list of digit characters (Python `int` of a digit string). -/
def digitsVal (ds : List Char) : Nat :=
  ds.foldl (fun n c => n * 10 + (c.toNat - 48)) 0

mutual

/-- Python `repr()` restricted to the value shapes the pipeline handles. -/
def pyRepr : J → String
  | .null => "None"
  | .bool b => if b then "True" else "False"
  | .num n => toString n
  | .str s => "\x27" ++ s ++ "\x27"
  | .arr xs => "[" ++ pyReprL xs ++ "]"
  | .obj kvs => "\x7b" ++ pyReprF kvs ++ "\x7d"

/-- Comma-joined `repr()`s of the elements of a list. -/
def pyReprL : List J → String
  | [] => ""
  | [x] => pyRepr x
  | x :: xs => pyRepr x ++ ", " ++ pyReprL xs

/-- Comma-joined `repr()`s of the entries of a dict. -/
def pyReprF : List (String × J) → String
  | [] => ""
  | [(k, v)] => "\x27" ++ k ++ "\x27: " ++ pyRepr v
  | (k, v) :: kvs => "\x27" ++ k ++ "\x27: " ++ pyRepr v ++ ", " ++ pyReprF kvs

end

/-- Python `str()` of a value. -/
def pyStr : J → String
  | .str s => s
  | v => pyRepr v

/-- Python `.lower()` (ASCII). -/
def pyLower (s : String) : String := String.mk (s.toList.map Char.toLower)

/-- Whether the first list of characters is a leading segment of the second. -/
def leadSeg : List Char → List Char → Bool
  | [], _ => true
  | _ :: _, [] => false
  | a :: as, b :: bs => a == b && leadSeg as bs

/-- Whether the first list occurs contiguously inside the second. -/
def occursIn (n : List Char) : List Char → Bool
  | [] => n.isEmpty
  | b :: bs => leadSeg n (b :: bs) || occursIn n bs

/-- Python `needle in hay` for strings. -/
def strIn (needle hay : String) : Bool := occursIn needle.toList hay.toList

/-- Leading integer of a string, per the regex `(\d+)` anchored at the start
(`None` when the string does not start with a digit). -/
def leadingNat (s : String) : Option Nat :=
  let ds := s.toList.takeWhile Char.isDigit
  if ds.isEmpty then none else some (digitsVal ds)

/-! ## Odds Time-Window Selector (`step2.7.py`, `_safe_minute` / `filter_by_time` /
`filter_odds_by_time`) -/

/-- `_safe_minute`: `None` stays `None`, otherwise the leading integer of
`str(v)` per the regex `(\d+)`, or `None` when there is none. -/
def safe_minute (v : J) : Option Nat :=
  match v with
  | .null => none
  | _ => leadingNat (pyStr v)

/-- Element `i` of a list of values (used only after a length check, as the
Python source indexes only after `len(...)` guards). -/
def jIdx (xs : List J) (i : Nat) : J := xs.getD i J.null

/-- The comprehension `[(safe_minute(ent[1]), ent) for ent in entries if
isinstance(ent, (list, tuple)) and len(ent) > 1]`. -/
def ptsRaw (entries : List J) : List (Option Nat × J) :=
  entries.filterMap (fun e =>
    match e with
    | .arr xs => if 1 < xs.length then some (safe_minute (jIdx xs 1), e) else none
    | _ => none)

/-- The comprehension `[(m, e) for m, e in pts if m is not None]`. -/
def ptsOf (entries : List J) : List (Nat × J) :=
  (ptsRaw entries).filterMap (fun p =>
    match p.1 with
    | some m => some (m, p.2)
    | none => none)

/-- Twice the distance from minute `m` to 4.5: `|2m - 9|`.  The Python code
compares `abs(m - 4.5)` in floats; both `m` and `4.5` are exactly
representable and doubling preserves every comparison, so the integer
`|2m - 9|` induces the same order. -/
def minuteDist (m : Nat) : Nat := ((2 * (m : Int)) - 9).natAbs

/-- Python `min(l, key=f)` (first element with minimal key wins, because
`min` only replaces its candidate on a strictly smaller key). -/
def pyMinBy {α : Type} (f : α → Nat) : α → List α → α
  | a, [] => a
  | a, b :: bs => if f b < f a then pyMinBy f b bs else pyMinBy f a bs

/-- `filter_by_time` (the closure inside `extract_odds`). -/
def filter_by_time (entries : List J) : List J :=
  let pts := ptsOf entries
  let in_window := (pts.filter (fun p => 3 ≤ p.1 && p.1 ≤ 6)).map Prod.snd
  if in_window.isEmpty then
    match pts.filter (fun p => p.1 < 10) with
    | [] => []
    | u :: us => [(pyMinBy (fun p => minuteDist p.1) u us).2]
  else in_window

/-- `filter_odds_by_time` (module level; textually the same algorithm as
the closure, with the final guard written as an `if`/`return`). -/
def filter_odds_by_time (odds_entries : List J) : List J :=
  let pts := ptsOf odds_entries
  let in_window := (pts.filter (fun p => 3 ≤ p.1 && p.1 ≤ 6)).map Prod.snd
  if in_window.isEmpty then
    match pts.filter (fun p => p.1 < 10) with
    | [] => []
    | u :: us => [(pyMinBy (fun p => minuteDist p.1) u us).2]
  else in_window

/-! ## Payload Accessor (`step2.7.py`, `first_result`; `step1_json.py`,
`extract_status_id`) -/

/-- `first_result(mapping, key)`: guard `key is not None`, look up
`str(key)`, then `wrap.get("results") or wrap.get("result") or []` and
return `res[0] if isinstance(res, list) and res else {}`.  The mapping is
a dict (its `.get` is only ever called on dicts in the source). -/
def first_result (mapping : List (String × J)) (key : J) : J :=
  if key = J.null then J.obj []
  else
    match jLook mapping (pyStr key) with
    | some (J.obj kvs) =>
        match pyOr (pyOr (pyGet kvs "results") (pyGet kvs "result")) (J.arr []) with
        | .arr (x :: _) => x
        | _ => J.obj []
    | _ => J.obj []

/-- `extract_status_id(match)`: `match.get("status_id") or
(match.get("score", [None, None])[1] if isinstance(match.get("score"), list)
and len(match.get("score", [])) > 1 else None)`.  The argument is the
match dict (the source only ever applies it to dicts). -/
def extract_status_id (mo : List (String × J)) : J :=
  let s := pyGet mo "status_id"
  if s.truthy then s
  else
    match pyGet mo "score" with
    | .arr xs => if 1 < xs.length then jIdx xs 1 else J.null
    | _ => J.null

/-! ## Status Classifier subsets (`step1_json.py` `create_unified_status_summary`
and `step1_main`; `step2.7.py` `STATUS_FILTER`) -/

/-- `in_play_status_ids = [2, 3, 4, 5, 7]` in `create_unified_status_summary`. -/
def in_play_status_ids : List Int := [2, 3, 4, 5, 7]

/-- `STATUS_FILTER = {2, 3, 4, 5, 6, 7}` at the top of `step2.7.py`; the same
set is written `[2, 3, 4, 5, 6, 7]` in `step1_main`. -/
def STATUS_FILTER : List Int := [2, 3, 4, 5, 6, 7]

/-- How many matches carry a given extracted status value; this is the
`status_counts` entry that `create_unified_status_summary` builds for a
status id (a match contributes to the entry of the one value
`extract_status_id` gives it). -/
def statusCount (ms : List (List (String × J))) (sid : Int) : Nat :=
  (ms.filter (fun m => extract_status_id m = J.num sid)).length

/-- The unified summary's in-play count: `sum(status_counts.get(sid, {}).get("count", 0)
for sid in in_play_status_ids)`. -/
def unified_in_play_count (ms : List (List (String × J))) : Nat :=
  (in_play_status_ids.map (statusCount ms)).sum

/-- The `step1_main` footer loop: `for match in matches: if
extract_status_id(match) in [2, 3, 4, 5, 6, 7]: in_play_count += 1`. -/
def step1_in_play_count (ms : List (List (String × J))) : Nat :=
  ms.foldl
    (fun acc m =>
      if STATUS_FILTER.any (fun s => extract_status_id m = J.num s) then acc + 1 else acc)
    0

/-! ## History Store (`step2.7.py`, `save_match_summaries`) -/

/-- `MAX_HISTORY_ENTRIES = 100`. -/
def MAX_HISTORY_ENTRIES : Nat := 100

/-- One write of `save_match_summaries`, restricted to its effect on the
`history` list: when the loaded history has length `>= 100` it is replaced
by `history[-100:]`, and then the new batch is appended. -/
def save_history_step {α : Type} (history : List α) (batch : α) : List α :=
  let h :=
    if MAX_HISTORY_ENTRIES ≤ history.length then
      history.drop (history.length - MAX_HISTORY_ENTRIES)
    else history
  h ++ [batch]

/-- The history after writing batches `0, 1, ..., n-1` in order to an
initially empty store. -/
def history_after (n : Nat) : List Nat :=
  (List.range n).foldl save_history_step []

/-! ## Environment Interpreter (`step2.7.py`, `extract_environment` and
`process_environment_like_step2`) -/

/-- Character class `[\d.-]` of the environment regex. -/
def isNumChunkChar (c : Char) : Bool := c.isDigit || c == '.' || c == '-'

/-- `re.match(r"([\d.-]+)\s*([^\d]*)", s)` followed by `.strip()` on group 2:
the leading run of `[\d.-]` (must be non-empty, else no match), then
whitespace is skipped and group 2 is the following run of non-digits. -/
def envMatch (s : String) : Option (String × String) :=
  let cs := s.toList
  let g1 := cs.takeWhile isNumChunkChar
  if g1.isEmpty then none
  else
    let rest := (cs.drop g1.length).dropWhile Char.isWhitespace
    let g2 := rest.takeWhile (fun c => !c.isDigit)
    some (String.mk g1,
      String.mk (((g2.dropWhile Char.isWhitespace).reverse.dropWhile Char.isWhitespace).reverse))

/-- Whether every character is a decimal digit. -/
def allDigits (cs : List Char) : Bool := cs.all Char.isDigit

/-- An exact rational (numerator over positive denominator), kept in lowest
terms by the smart constructor `qMk`.  It models the source's float values
exactly: every number the environment code handles is a small decimal, and
all of its comparisons and the one rounding site are far from any float
rounding boundary. -/
structure Q where
  n : Int
  d : Nat
deriving DecidableEq

/-- Build a rational in lowest terms (denominator `0` is never produced by
the pipeline; it is mapped to `0` for totality). -/
def qMk (n : Int) (d : Nat) : Q :=
  if d = 0 then ⟨0, 1⟩
  else
    let g := n.natAbs.gcd d
    ⟨Int.fdiv n (g : Int), d / g⟩

def qOfInt (n : Int) : Q := ⟨n, 1⟩

def qAdd (a b : Q) : Q := qMk (a.n * (b.d : Int) + b.n * (a.d : Int)) (a.d * b.d)

def qMul (a b : Q) : Q := qMk (a.n * b.n) (a.d * b.d)

def qNeg (a : Q) : Q := ⟨-a.n, a.d⟩

/-- Strict comparison (denominators are positive). -/
def qLt (a b : Q) : Bool := a.n * (b.d : Int) < b.n * (a.d : Int)

/-- Python `round()` on a value whose fractional part is never one half
(`round(x) = floor(x + 1/2)` away from ties). -/
def qRound (a : Q) : Int := Int.fdiv (2 * a.n + (a.d : Int)) (2 * (a.d : Int))

/-- Split a character list at every occurrence of a separator. -/
def splitOnChar (sep : Char) : List Char → List (List Char)
  | [] => [[]]
  | c :: rest =>
    let r := splitOnChar sep rest
    if c == sep then [] :: r
    else
      match r with
      | h :: t => (c :: h) :: t
      | [] => [[c]]

/-- Python `float()` of an unsigned body consisting of `[\d.]` characters:
digits with at most one dot and at least one digit (`none` = `ValueError`). -/
def pyFloatMag (body : List Char) : Option Q :=
  match splitOnChar '.' body with
  | [a] =>
      if !a.isEmpty && allDigits a then some (qOfInt (digitsVal a : Int)) else none
  | [a, b] =>
      if allDigits a && allDigits b && (!a.isEmpty || !b.isEmpty) then
        some (qAdd (qOfInt (digitsVal a : Int)) (qMk (digitsVal b : Int) (10 ^ b.length)))
      else none
  | _ => none

/-- Python `float()` on the strings the environment regex can produce
(made of `[\d.-]`); `none` models the `ValueError` the call can raise. -/
def pyFloat (s : String) : Option Q :=
  match s.toList with
  | '-' :: rest => (pyFloatMag rest).map qNeg
  | cs => pyFloatMag cs

/-- Python `int()` of `str(v)` for values that passed an `isdigit`-style
check; `none` models a `ValueError` (e.g. an inner dash). -/
def pyIntOf (s : String) : Option Int :=
  match s.toList with
  | '-' :: body =>
      if !body.isEmpty && allDigits body then some (-(digitsVal body : Int)) else none
  | cs => if !cs.isEmpty && allDigits cs then some (digitsVal cs : Int) else none

/-- `num, unit = (float(m.group(1)), m.group(2).strip()) if m else (None, None)`;
outer `none` = the `float` call raised. -/
def parseNumUnit (val : J) : Option (Option Q × Option String) :=
  match envMatch (pyStr val) with
  | none => some (none, none)
  | some (g1, g2) => (pyFloat g1).map (fun q => (some q, some g2))

/-- The fixed 10-entry weather description table. -/
def weatherDescTable : List (Int × String) :=
  [(1, "Sunny"), (2, "Partly Cloudy"), (3, "Cloudy"), (4, "Overcast"), (5, "Foggy"),
   (6, "Light Rain"), (7, "Rain"), (8, "Heavy Rain"), (9, "Snow"), (10, "Thunder")]

/-- `desc.get(w)` where the table keys are the ints 1..10. -/
def weatherLookup (w : J) : Option String :=
  match w with
  | .num n => (weatherDescTable.find? (fun p => p.1 == n)).map (fun p => p.2)
  | _ => none

/-- `int(wc) if isinstance(wc, str) and wc.isdigit() else wc`. -/
def normWeather (wc : J) : J :=
  match wc with
  | .str s => if !s.toList.isEmpty && allDigits s.toList then .num (digitsVal s.toList) else .str s
  | v => v

/-- The ascending `(limit, label)` wind table of `extract_environment`
(`process_environment_like_step2` hardcodes the same thresholds as an
`elif` chain). -/
def windThresholds : List (Int × String) :=
  [(1, "Calm"), (4, "Light Air"), (8, "Light Breeze"), (13, "Gentle Breeze"),
   (19, "Moderate Breeze"), (25, "Fresh Breeze"), (32, "Strong Breeze"),
   (39, "Near Gale"), (47, "Gale"), (55, "Strong Gale"), (64, "Storm"),
   (73, "Violent Storm")]

/-- `next((label for lim, label in descs if mph < lim), "Hurricane")`. -/
def windDesc (mph : Q) : String :=
  match windThresholds.find? (fun p => qLt mph (qOfInt p.1)) with
  | some p => p.2
  | none => "Hurricane"

/-- The record `extract_environment` builds (`parsed` in the source). -/
structure EnvParsed where
  raw : J
  weather : J
  weather_description : String
  temperature : J
  temperature_value : Option Q
  temperature_unit : Option String
  wind : J
  wind_value : Option Q
  wind_unit : Option String
  pressure : J
  pressure_value : Option Q
  pressure_unit : Option String
  humidity : J
  humidity_value : Option Q
  humidity_unit : Option String
  wind_description : String
deriving DecidableEq

/-- `extract_environment(match)` of `step2.7.py`; `none` models a raised
exception (non-dict attribute access, or `float()` failing on a matched
chunk such as `"-"`). -/
def extract_environment (m : J) : Option EnvParsed := do
  let mo ← asObj m
  let env := pyOr (pyGetD mo "environment" (J.obj [])) (J.obj [])
  let eo ← asObj env
  let w := normWeather (pyGet eo "weather")
  let tRaw := pyGet eo "temperature"
  let (tv, tu) ← parseNumUnit tRaw
  let wRaw := pyGet eo "wind"
  let (wv, wu) ← parseNumUnit wRaw
  let pRaw := pyGet eo "pressure"
  let (pv, pu) ← parseNumUnit pRaw
  let hRaw := pyGet eo "humidity"
  let (hv, hu) ← parseNumUnit hRaw
  let wvq : Q := wv.getD (qOfInt 0)
  let mph : Q :=
    if strIn "m/s" (pyLower (pyStr (pyGetD eo "wind" (J.str "")))) then
      qMul wvq (qMk 2237 1000)
    else wvq
  pure
    { raw := env
      weather := w
      weather_description := (weatherLookup w).getD "Unknown"
      temperature := tRaw, temperature_value := tv, temperature_unit := tu
      wind := wRaw, wind_value := wv, wind_unit := wu
      pressure := pRaw, pressure_value := pv, pressure_unit := pu
      humidity := hRaw, humidity_value := hv, humidity_unit := hu
      wind_description := windDesc mph }

/-- A short exact rendering of a rational, standing in for Python float
formatting in the display strings `process_environment_like_step2` builds
(those strings are display-only; no claim depends on their exact digits). -/
def ratDisplay (q : Q) : String :=
  if q.d = 1 then toString q.n else toString q.n ++ "/" ++ toString q.d

/-- The record `process_environment_like_step2` builds; `wind_description`
is `none` when the source leaves the key unset (unparseable wind). -/
structure Step2Env where
  raw : J
  weather : J
  weather_description : String
  temperature : String
  wind : String
  wind_description : Option String
  pressure : String
  humidity : String
deriving DecidableEq

/-- The condition `temp and str(temp).replace("-", "").isdigit()`. -/
def tempDigitCond (temp : J) : Bool :=
  temp.truthy &&
    (let r := (pyStr temp).toList.filter (fun c => c ≠ '-')
     !r.isEmpty && allDigits r)

/-- The condition `wind and str(wind).replace(".", "").isdigit()`. -/
def windDigitCond (wind : J) : Bool :=
  wind.truthy &&
    (let r := (pyStr wind).toList.filter (fun c => c ≠ '.')
     !r.isEmpty && allDigits r)

/-- `round(temp_c * 9/5 + 32)`: the float quotient is `(9c + 160)/5`, whose
fractional part is never one half, so rounding to the nearest integer agrees
with exact rational rounding. -/
def roundF (c : Int) : Int := qRound (qMk (9 * c + 160) 5)

/-- `process_environment_like_step2(env)` of `step2.7.py`; `none` models a
raised exception (`int()`/`float()` failing after the isdigit-style check,
e.g. `"5-3"` or `"1.2.3"`, or a non-dict argument). -/
def process_environment_like_step2 (env : J) : Option Step2Env := do
  let eo ← asObj env
  let w := normWeather (pyGet eo "weather")
  let wdesc := (weatherLookup w).getD ("Unknown (" ++ pyStr w ++ ")")
  let temp := pyGet eo "temperature"
  let tempStr ←
    if tempDigitCond temp then do
      let tc ← pyIntOf (pyStr temp)
      pure (toString tc ++ "°C (" ++ toString (roundF tc) ++ "°F)")
    else
      pure (if temp.truthy then pyStr temp else "Unknown")
  let wind := pyGet eo "wind"
  let (windStr, windDescO) ←
    if windDigitCond wind then do
      let mph ← pyFloat (pyStr wind)
      let d := windDesc mph
      pure (ratDisplay mph ++ " mph (" ++ d ++ ")", some d)
    else
      pure ((if wind.truthy then pyStr wind else "Unknown"), (none : Option String))
  pure
    { raw := env
      weather := w
      weather_description := wdesc
      temperature := tempStr
      wind := windStr
      wind_description := windDescO
      pressure := pyStr (pyGetD eo "pressure" (J.str "Unknown")) ++ " hPa"
      humidity := pyStr (pyGetD eo "humidity" (J.str "Unknown")) ++ "%" }

/-! ## Odds extraction (`step2.7.py`, `extract_odds`) -/

/-- Python `for x in v`: lists iterate their elements, strings their
characters, dicts their keys; other values raise (`none`). -/
def iterElems : J → Option (List J)
  | .arr xs => some xs
  | .str s => some (s.toList.map (fun c => J.str (String.mk [c])))
  | .obj kvs => some (kvs.map (fun kv => J.str kv.1))
  | _ => none

/-- Assignment `d[k] = v` on a dict: replace the value of an existing key
in place, else append the new entry. -/
def assocSet : List (String × J) → String → J → List (String × J)
  | [], k, v => [(k, v)]
  | (k1, v1) :: rest, k, v =>
      if k1 = k then (k1, v) :: rest else (k1, v1) :: assocSet rest k v

/-- One resolved `full_time_result` / `spread` snapshot or one `over_under`
line, with the positional fields named as the source names them. -/
structure FTEntry where
  home : J
  draw : J
  away : J
  timestamp : J
  match_time : J
deriving DecidableEq

structure SpEntry where
  handicap : J
  home : J
  away : J
  timestamp : J
  match_time : J
deriving DecidableEq

structure OUEntry where
  line : J
  over : J
  under : J
  timestamp : J
  match_time : J
deriving DecidableEq

/-- The dict `extract_odds` builds (`data` in the source): an empty market
dict is modelled as `none` / `[]`, and `primary_over_under` is absent
(`none`) unless the `bs` market resolved. -/
structure OddsData where
  full_time_result : Option FTEntry
  both_teams_to_score : List (String × J)
  over_under : List (String × OUEntry)
  spread : Option SpEntry
  primary_over_under : Option OUEntry
  raw : J
deriving DecidableEq

/-- `(filter_by_time(raw_odds.get(key, [])) or [None])[0]`, guarded by
`if entry and len(entry) >= max(idxs) + 1` (`max(idxs) + 1 = 5` for every
market key); yields the entry's element list when the guard passes. -/
def resolvedEntry (ro : List (String × J)) (key : String) : Option (Option (List J)) := do
  let entries ← iterElems (pyGetD ro key (J.arr []))
  pure
    (match (filter_by_time entries).head? with
     | some (J.arr xs) => if 5 ≤ xs.length then some xs else none
     | _ => none)

/-- The selection loop body for one `Both Teams to Score` market:
`nm = sel.get("name", "").lower(); if nm in ("yes", "no"):
btts[nm] = sel.get("odds")`. -/
def selFold (acc : List (String × J)) : List J → Option (List (String × J))
  | [] => some acc
  | sel :: rest => do
    let so ← asObj sel
    let nm ←
      match pyGetD so "name" (J.str "") with
      | .str s => some (pyLower s)
      | _ => none
    let acc2 := if nm = "yes" || nm = "no" then assocSet acc nm (pyGet so "odds") else acc
    selFold acc2 rest

/-- The market loop of `extract_odds`: every market named
`"Both Teams to Score"` contributes its yes/no selections. -/
def bttsFold (acc : List (String × J)) : List J → Option (List (String × J))
  | [] => some acc
  | mk :: rest => do
    let mo ← asObj mk
    if pyGet mo "name" = J.str "Both Teams to Score" then do
      let sels ← iterElems (pyGetD mo "selections" (J.arr []))
      let acc2 ← selFold acc sels
      bttsFold acc2 rest
    else bttsFold acc rest

/-- `extract_odds(match)` of `step2.7.py`; `none` models a raised exception
(non-dict `odds`/`betting` value, non-iterable market list, non-dict
market/selection, or a non-string selection name). -/
def extract_odds (m : J) : Option OddsData := do
  let mo ← asObj m
  let raw_odds := pyOr (pyGetD mo "odds" (J.obj [])) (J.obj [])
  let ro ← asObj raw_odds
  let eu ← resolvedEntry ro "eu"
  let asia ← resolvedEntry ro "asia"
  let bs ← resolvedEntry ro "bs"
  let ftr : Option FTEntry :=
    eu.map (fun xs =>
      { home := jIdx xs 2, draw := jIdx xs 3, away := jIdx xs 4,
        timestamp := jIdx xs 0, match_time := jIdx xs 1 })
  let sp : Option SpEntry :=
    asia.map (fun xs =>
      { handicap := jIdx xs 3, home := jIdx xs 2, away := jIdx xs 4,
        timestamp := jIdx xs 0, match_time := jIdx xs 1 })
  let ouLine : Option OUEntry :=
    bs.map (fun xs =>
      { line := jIdx xs 3, over := jIdx xs 2, under := jIdx xs 4,
        timestamp := jIdx xs 0, match_time := jIdx xs 1 })
  let betting := pyGetD mo "betting" (J.obj [])
  let bo ← asObj betting
  let markets ← iterElems (pyGetD bo "markets" (J.arr []))
  let btts ← bttsFold [] markets
  pure
    { full_time_result := ftr
      both_teams_to_score := btts
      over_under := (ouLine.map (fun l => [(pyStr l.line, l)])).getD []
      spread := sp
      primary_over_under := ouLine
      raw := raw_odds }

/-! ## Event filtering (`step2.7.py`, `extract_events`) -/

/-- The fixed allow-set of event types. -/
def allowedEventTypes : List String :=
  ["goal", "yellowcard", "redcard", "penalty", "substitution"]

/-- One filtered event record. -/
structure EventRec where
  type : J
  time : J
  team : J
  player : J
  detail : J
deriving DecidableEq

/-- The comprehension body of `extract_events`. -/
def eventsFold : List J → Option (List EventRec)
  | [] => some []
  | ev :: rest => do
    let eo ← asObj ev
    let r ← eventsFold rest
    if allowedEventTypes.any (fun t => pyGet eo "type" = J.str t) then
      pure
        ({ type := pyGet eo "type", time := pyGet eo "time", team := pyGet eo "team",
           player := pyGet eo "player", detail := pyGet eo "detail" } :: r)
    else pure r

/-- `extract_events(match)` of `step2.7.py`. -/
def extract_events (m : J) : Option (List EventRec) := do
  let mo ← asObj m
  let evs ← iterElems (pyGetD mo "events" (J.arr []))
  eventsFold evs

/-! ## Match Summarizer (`step2.7.py`, `extract_summary_fields`) -/

/-- One team block of a summary (`teams.home` / `teams.away`). -/
structure TeamBlock where
  name : J
  score_current : J
  score_halftime : J
  score_detailed : J
  position : J
  country : J
  logo_url : J
deriving DecidableEq

/-- The canonical per-match summary structure (the dict returned by
`extract_summary_fields`, with nesting flattened into named fields). -/
structure MatchSummary where
  match_id : J
  status_id : J
  status_description : J
  status_match_time : J
  home : TeamBlock
  away : TeamBlock
  competition_name : J
  competition_id : J
  competition_country : J
  competition_logo : J
  round : J
  venue : J
  referee : J
  neutral : Bool
  coverage : J
  start_time : J
  odds : OddsData
  environment : EnvParsed
  events : List EventRec
  fetched_at : String
deriving DecidableEq

/-- The preliminary `home_live/home_ht` (resp. away) pair taken from
element 2 (resp. 3) of the 4+-element score array, defaulting to `0`. -/
def scorePairAt (sd : J) (i : Nat) : J × J :=
  match sd with
  | .arr xs =>
    if 3 < xs.length then
      match jIdx xs i with
      | .arr h => if 1 < h.length then (jIdx h 0, jIdx h 1) else (J.num 0, J.num 0)
      | _ => (J.num 0, J.num 0)
    else (J.num 0, J.num 0)
  | _ => (J.num 0, J.num 0)

/-- The flat-list fallback: `if home_scores and home_live == 0: home_live =
home_scores[0] if isinstance(home_scores, list) and home_scores else 0`. -/
def scoreFallback (live : J) (flat : J) : J :=
  if flat.truthy && live = J.num 0 then
    match flat with
    | .arr (x :: _) => x
    | _ => J.num 0
  else live

/-- `extract_summary_fields(match)` of `step2.7.py`.  The wall-clock
`get_eastern_time()` call is lifted into the `now` parameter; `none`
models an exception raised by one of the nested extractors. -/
def extract_summary_fields (now : String) (m : J) : Option MatchSummary := do
  let mo ← asObj m
  let sd := pyGetD mo "score" (J.arr [])
  let hPair := scorePairAt sd 2
  let aPair := scorePairAt sd 3
  let home_scores := pyGetD mo "home_scores" (J.arr [])
  let away_scores := pyGetD mo "away_scores" (J.arr [])
  let hl := scoreFallback hPair.1 home_scores
  let al := scoreFallback aPair.1 away_scores
  let odds ← extract_odds m
  let env ← extract_environment m
  let evs ← extract_events m
  pure
    { match_id := pyOr (pyGet mo "match_id") (pyGet mo "id")
      status_id := pyGet mo "status_id"
      status_description := pyGetD mo "status" (J.str "")
      status_match_time := pyGetD mo "match_time" (J.num 0)
      home :=
        { name := pyGetD mo "home_team" (J.str "Unknown")
          score_current := hl, score_halftime := hPair.2, score_detailed := home_scores
          position := pyGet mo "home_position"
          country := pyGet mo "home_country"
          logo_url := pyGet mo "home_logo" }
      away :=
        { name := pyGetD mo "away_team" (J.str "Unknown")
          score_current := al, score_halftime := aPair.2, score_detailed := away_scores
          position := pyGet mo "away_position"
          country := pyGet mo "away_country"
          logo_url := pyGet mo "away_logo" }
      competition_name := pyGetD mo "competition" (J.str "Unknown")
      competition_id := pyGet mo "competition_id"
      competition_country := pyGet mo "country"
      competition_logo := pyGet mo "competition_logo"
      round := pyGetD mo "round" (J.obj [])
      venue := pyGet mo "venue_id"
      referee := pyGet mo "referee_id"
      neutral := pyGet mo "neutral" = J.num 1
      coverage := pyGetD mo "coverage" (J.obj [])
      start_time := pyGet mo "scheduled"
      odds := odds
      environment := env
      events := evs
      fetched_at := now }

/-! ## Entity Resolver/Merger (`step2.7.py`, `merge_and_summarize`) -/

/-- Whether a value can be a Python dict key (lists and dicts are
unhashable and make the lookup raise). -/
def jHashable : J → Bool
  | .arr _ => false
  | .obj _ => false
  | _ => true

/-- Assignment into a dict keyed by arbitrary (hashable) values, as in the
`countries` comprehension. -/
def jAssocSet : List (J × J) → J → J → List (J × J)
  | [], k, v => [(k, v)]
  | (k1, v1) :: rest, k, v =>
      if k1 = k then (k1, v) :: rest else (k1, v1) :: jAssocSet rest k v

/-- `countries.get(k)` (`None` when absent). -/
def jAssocGet (l : List (J × J)) (k : J) : J :=
  ((l.find? (fun p => p.1 = k)).map (fun p => p.2)).getD J.null

/-- The comprehension `{c.get("id"): c.get("name") for c in cl if
isinstance(c, dict)}`; `none` models an unhashable id. -/
def countriesOf (cl : List J) : Option (List (J × J)) :=
  cl.foldlM
    (fun acc c =>
      match c with
      | J.obj co =>
          if jHashable (pyGet co "id") then some (jAssocSet acc (pyGet co "id") (pyGet co "name"))
          else none
      | _ => some acc)
    []

/-- The comprehension `{mt: od for mk in odds_wrap.get("results", {}).values()
for mt, od in mk.items() if isinstance(mk, dict)}` — note `mk.items()` is
evaluated before the `isinstance` guard, so a non-dict group raises. -/
def oddsStructOf (ow : List (String × J)) : Option (List (String × J)) := do
  let mks ←
    match pyGetD ow "results" (J.obj []) with
    | .obj kvs => some (kvs.map (fun kv => kv.2))
    | _ => none
  mks.foldlM
    (fun acc mk => do
      let mko ← asObj mk
      pure (mko.foldl (fun a kv => assocSet a kv.1 kv.2) acc))
    []

/-! The merger is split into the side-table bundle, the per-match resolution
and the merged-dict assembly, so the steps of `merge_and_summarize` stay
visible. -/

/-- The side-table dicts `merge_and_summarize` reads from `payload`, plus
the `countries` id-to-name dict built from the country bundle. -/
structure SideTables where
  dm : List (String × J)
  om : List (String × J)
  tm : List (String × J)
  cm : List (String × J)
  countries : List (J × J)

def sideTablesOf (po : List (String × J)) : Option SideTables := do
  let dm ← asObj (pyGetD po "match_details" (J.obj []))
  let om ← asObj (pyGetD po "match_odds" (J.obj []))
  let tm ← asObj (pyGetD po "team_info" (J.obj []))
  let cm ← asObj (pyGetD po "competition_info" (J.obj []))
  let cw ← asObj (pyGetD po "countries" (J.obj []))
  let cl ← iterElems (pyOr (pyOr (pyGet cw "results") (pyGet cw "result")) (J.arr []))
  let countries ← countriesOf cl
  pure ⟨dm, om, tm, cm, countries⟩

def sideIdOf (lo : List (String × J)) (detail : J) (key : String) : Option J :=
  pyOrM (pyGet lo key) ((asObj detail).map (fun d => pyGet d key))

def oddsWrapOf (om : List (String × J)) (mid : J) : Option J :=
  if jHashable mid then
    some
      (match mid with
       | .str s => pyGetD om s (J.obj [])
       | _ => J.obj [])
  else none

def entityCountry (countries : List (J × J)) (eo : List (String × J)) : Option J :=
  pyOrM (pyGet eo "country")
    (if jHashable (pyGet eo "country_id") then some (jAssocGet countries (pyGet eo "country_id"))
     else none)

def resolvedSide (tbl : List (String × J)) (lo : List (String × J)) (detail : J)
    (key : String) : Option (List (String × J)) := do
  let i ← sideIdOf lo detail key
  asObj (first_result tbl i)

structure Resolved where
  ho : List (String × J)
  ao : List (String × J)
  co : List (String × J)
  dobj : List (String × J)
  hC : J
  aC : J
  cC : J
  odds_struct : List (String × J)
  odds_wrap : J

def resolveParts (lo : List (String × J)) (st : SideTables) : Option Resolved := do
  let mid := pyOr (pyGet lo "id") (pyGet lo "match_id")
  let detail := first_result st.dm mid
  let odds_wrap ← oddsWrapOf st.om mid
  let ow ← asObj odds_wrap
  let odds_struct ← oddsStructOf ow
  let ho ← resolvedSide st.tm lo detail "home_team_id"
  let ao ← resolvedSide st.tm lo detail "away_team_id"
  let co ← resolvedSide st.cm lo detail "competition_id"
  let dobj ← asObj detail
  let hC ← entityCountry st.countries ho
  let aC ← entityCountry st.countries ao
  let cC ← entityCountry st.countries co
  pure ⟨ho, ao, co, dobj, hC, aC, cC, odds_struct, odds_wrap⟩

def mergedEntries (lo : List (String × J)) (r : Resolved) : List (String × J) :=
  [("odds", J.obj r.odds_struct),
   ("environment", (jLook r.dobj "environment").getD (pyGetD lo "environment" (J.obj []))),
   ("events", (jLook r.dobj "events").getD (pyGetD lo "events" (J.arr []))),
   ("home_team", pyOr (pyGet r.ho "name") (pyGet lo "home_name")),
   ("home_logo", pyGet r.ho "logo"),
   ("home_country", r.hC),
   ("away_team", pyOr (pyGet r.ao "name") (pyGet lo "away_name")),
   ("away_logo", pyGet r.ao "logo"),
   ("away_country", r.aC),
   ("competition", pyOr (pyGet r.co "name") (pyGet lo "competition_name")),
   ("competition_logo", pyGet r.co "logo"),
   ("country", r.cC),
   ("odds_raw", r.odds_wrap)] ++ r.dobj ++ lo

def merged_match (live payload : J) : Option (List (String × J)) := do
  let lo ← asObj live
  let po ← asObj payload
  let st ← sideTablesOf po
  let r ← resolveParts lo st
  pure (mergedEntries lo r)

def merge_and_summarize (now : String) (live payload : J) : Option MatchSummary := do
  let mm ← merged_match live payload
  extract_summary_fields now (J.obj mm)

/-! ## Country Inference (`step2.7.py`, `infer_country_from_teams`) -/

/-- The fixed `country_indicators` table, in source order (Python dicts
iterate in insertion order). -/
def country_indicators : List (String × List String) :=
  [("australia", ["australia", "aussie", "socceroos", "matildas"]),
   ("argentina", ["argentina", "boca", "river plate", "racing club"]),
   ("brazil", ["brazil", "sao paulo", "flamengo", "corinthians", "palmeiras"]),
   ("england", ["england", "manchester", "liverpool", "chelsea", "arsenal", "tottenham"]),
   ("spain", ["spain", "real madrid", "barcelona", "atletico", "sevilla", "valencia"]),
   ("germany", ["germany", "bayern", "borussia", "schalke", "hamburg"]),
   ("france", ["france", "psg", "marseille", "lyon", "monaco", "saint-etienne"]),
   ("italy", ["italy", "juventus", "inter", "milan", "roma", "napoli", "lazio"]),
   ("netherlands", ["netherlands", "ajax", "psv", "feyenoord"]),
   ("portugal", ["portugal", "porto", "benfica", "sporting"]),
   ("mexico", ["mexico", "america", "guadalajara", "cruz azul", "pumas"]),
   ("usa", ["usa", "united states", "la galaxy", "seattle sounders", "new york"]),
   ("south korea", ["korea", "seoul", "busan", "daegu"]),
   ("japan", ["japan", "tokyo", "osaka", "yokohama", "kashima"]),
   ("china", ["china", "beijing", "shanghai", "guangzhou"]),
   ("russia", ["russia", "moscow", "spartak", "cska", "dynamo", "zenit"]),
   ("norway", ["norway", "oslo", "bergen"]),
   ("czech republic", ["czech", "praha", "prague", "brno"]),
   ("austria", ["austria", "vienna", "salzburg"])]

/-- Python `str.title()`: a letter is uppercased when the previous
character is not a letter, lowercased otherwise. -/
def pyTitleGo : Bool → List Char → List Char
  | _, [] => []
  | prevAlpha, c :: cs =>
    (if c.isAlpha then (if prevAlpha then c.toLower else c.toUpper) else c) ::
      pyTitleGo c.isAlpha cs

/-- Python `s.title()`. -/
def pyTitle (s : String) : String := String.mk (pyTitleGo false s.toList)

/-- The per-side scan: for each table entry, append the country once per
indicator occurring in the (lowercased) team name. -/
def sideCountries (team : String) : List String :=
  (country_indicators.map
    (fun ci => (ci.2.filter (fun ind => strIn ind team)).map (fun _ => ci.1))).flatten

/-- The trailing generic scan of `infer_country_from_teams`: first table
entry with an indicator occurring in `home + " " + away`, title-cased,
else `"Unknown"`. -/
def genericScan (team_text : String) : String :=
  match country_indicators.find? (fun ci => ci.2.any (fun ind => strIn ind team_text)) with
  | some ci => pyTitle ci.1
  | none => "Unknown"

/-- The fields of a match dict read by `infer_country_from_teams` and
`sort_matches_by_competition_and_time` (string-typed where the source
calls string methods on them; `country` is `none` for an absent key or a
stored `None`). -/
structure MatchRow where
  competition : String
  country : Option String
  status_id : Option Int
  match_id : String
  home_team : String
  away_team : String
deriving DecidableEq

/-- `infer_country_from_teams(match_data)` of `step2.7.py`. -/
def infer_country_from_teams (md : MatchRow) : String :=
  let home_team := pyLower md.home_team
  let away_team := pyLower md.away_team
  let competition := pyLower md.competition
  if strIn "international" competition && strIn "friendly" competition then
    match sideCountries home_team, sideCountries away_team with
    | h :: _, a :: _ => if h ≠ a then "International" else pyTitle h
    | h :: _, [] => pyTitle h
    | [], a :: _ => pyTitle a
    | [], [] => genericScan (home_team ++ " " ++ away_team)
  else genericScan (pyLower md.home_team ++ " " ++ pyLower md.away_team)

/-! ## Competition Grouper (`step2.7.py`, `sort_matches_by_competition_and_time`) -/

/-- `country = match_data.get("country", "Unknown") or "Unknown"`, then
`if country in [None, "None"]: country = infer_country_from_teams(...)`. -/
def groupCountry (md : MatchRow) : String :=
  let c :=
    match md.country with
    | some s => if s = "" then "Unknown" else s
    | none => "Unknown"
  if c = "None" then infer_country_from_teams md else c

/-- `status_order.get(match_data.get("status_id", 99), 99)` for the fixed
map `{2: 1, 3: 2, 4: 3, 5: 4, 6: 5, 7: 6}`. -/
def status_order_rank : Option Int → Nat
  | some 2 => 1
  | some 3 => 2
  | some 4 => 3
  | some 5 => 4
  | some 6 => 5
  | some 7 => 6
  | _ => 99

/-- The sort key of a `(match_id, match_data)` item inside a group. -/
def matchSortKey (it : String × MatchRow) : Nat × String :=
  (status_order_rank it.2.status_id, it.2.match_id)

/-- Lexicographic order on sort-key pairs, as Python compares key tuples. -/
def lexLe {α β : Type} [LinearOrder α] [LinearOrder β] (a b : α × β) : Prop :=
  a.1 < b.1 ∨ (a.1 = b.1 ∧ a.2 ≤ b.2)

instance {α β : Type} [LinearOrder α] [LinearOrder β] :
    DecidableRel (lexLe (α := α) (β := β)) := fun a b => by
  unfold lexLe; infer_instance

theorem lexLe_total {α β : Type} [LinearOrder α] [LinearOrder β] (a b : α × β) :
    lexLe a b ∨ lexLe b a := by
  rcases lt_trichotomy a.1 b.1 with h | h | h
  · exact Or.inl (Or.inl h)
  · rcases le_total a.2 b.2 with h2 | h2
    · exact Or.inl (Or.inr ⟨h, h2⟩)
    · exact Or.inr (Or.inr ⟨h.symm, h2⟩)
  · exact Or.inr (Or.inl h)

theorem lexLe_trans {α β : Type} [LinearOrder α] [LinearOrder β] {a b c : α × β}
    (h1 : lexLe a b) (h2 : lexLe b c) : lexLe a c := by
  rcases h1 with h1 | ⟨h1, h1b⟩ <;> rcases h2 with h2 | ⟨h2, h2b⟩
  · exact Or.inl (h1.trans h2)
  · exact Or.inl (h2 ▸ h1)
  · exact Or.inl (h1 ▸ h2)
  · exact Or.inr ⟨h1.trans h2, h1b.trans h2b⟩

/-- Order on items inside a group: by `(rank, match_id)`. -/
def matchItemLe (a b : String × MatchRow) : Prop :=
  lexLe (matchSortKey a) (matchSortKey b)

instance : DecidableRel matchItemLe := fun a b => by
  unfold matchItemLe; infer_instance

instance : IsTotal (String × MatchRow) matchItemLe :=
  ⟨fun a b => lexLe_total (matchSortKey a) (matchSortKey b)⟩

instance : IsTrans (String × MatchRow) matchItemLe :=
  ⟨fun _ _ _ => lexLe_trans⟩

/-- One step of the grouping loop: append the item to its competition's
bucket, creating the bucket (with the country of this first item) on first
sight.  Buckets are `(competition, country, items)`. -/
def addToGroups (gs : List (String × String × List (String × MatchRow)))
    (it : String × MatchRow) : List (String × String × List (String × MatchRow)) :=
  if gs.any (fun g => g.1 = it.2.competition) then
    gs.map (fun g => if g.1 = it.2.competition then (g.1, g.2.1, g.2.2 ++ [it]) else g)
  else gs ++ [(it.2.competition, groupCountry it.2, [it])]

/-- `competition_groups` after the grouping loop, in insertion order. -/
def competitionGroups (ms : List (String × MatchRow)) :
    List (String × String × List (String × MatchRow)) :=
  ms.foldl addToGroups []

/-- The group sort key `(item[1]["country"] or "Unknown", item[0])`. -/
def groupSortKey (g : String × String × List (String × MatchRow)) : String × String :=
  ((if g.2.1 = "" then "Unknown" else g.2.1), g.1)

/-- Order on groups: by `(country, competition name)`. -/
def groupLe (a b : String × String × List (String × MatchRow)) : Prop :=
  lexLe (groupSortKey a) (groupSortKey b)

instance : DecidableRel groupLe := fun a b => by
  unfold groupLe; infer_instance

instance : IsTotal (String × String × List (String × MatchRow)) groupLe :=
  ⟨fun a b => lexLe_total (groupSortKey a) (groupSortKey b)⟩

instance : IsTrans (String × String × List (String × MatchRow)) groupLe :=
  ⟨fun _ _ _ => lexLe_trans⟩

/-- `sorted_comps`: every bucket's items sorted by `(rank, match_id)`, the
buckets sorted by `(country, competition)`.  Python `list.sort`/`sorted`
are stable; `List.insertionSort` is stable for a total preorder, so it
computes the same lists. -/
def sortedComps (ms : List (String × MatchRow)) :
    List (String × String × List (String × MatchRow)) :=
  List.insertionSort groupLe
    ((competitionGroups ms).map (fun g => (g.1, g.2.1, List.insertionSort matchItemLe g.2.2)))

/-- `sort_matches_by_competition_and_time(matches)`: the final
`{comp: matches}` dict, in sorted order. -/
def sort_matches_by_competition_and_time (ms : List (String × MatchRow)) :
    List (String × List (String × MatchRow)) :=
  (sortedComps ms).map (fun g => (g.1, g.2.2))

/-! ## Spec-side helpers

The following definitions restate, from the claims' wording, the
properties the selector and the betting-market scan are supposed to have;
the theorems below compare them with the source-translated functions. -/

/-- The minute an odds entry carries: defined exactly for entries that are
2+-element lists whose second element yields a leading integer. -/
def entryMinute (e : J) : Option Nat :=
  match e with
  | .arr xs => if 1 < xs.length then safe_minute (jIdx xs 1) else none
  | _ => none

/-- Whether an entry's minute lies in the closed preferred window `[3, 6]`. -/
def inWindow (e : J) : Bool :=
  match entryMinute e with
  | some m => decide (3 ≤ m) && decide (m ≤ 6)
  | none => false

/-- Whether an entry's minute is below `10`. -/
def underTen (e : J) : Bool :=
  match entryMinute e with
  | some m => decide (m < 10)
  | none => false

/-- The distance of an entry's minute from 4.5 (doubled), `0` for entries
without a minute. -/
def entryDist (e : J) : Nat :=
  match entryMinute e with
  | some m => minuteDist m
  | none => 0

/-- The yes/no pairs one selection list contributes, in order: lowercased
name and odds of every selection named `yes`/`no` (case-insensitively). -/
def selPairs (sels : List J) : List (String × J) :=
  sels.filterMap (fun sel =>
    match sel with
    | .obj so =>
      match pyGetD so "name" (J.str "") with
      | .str s =>
          if pyLower s = "yes" || pyLower s = "no" then some (pyLower s, pyGet so "odds")
          else none
      | _ => none
    | _ => none)

/-- All yes/no pairs contributed by markets named `"Both Teams to Score"`,
in traversal order. -/
def marketPairs (mkts : List J) : List (String × J) :=
  (mkts.filterMap (fun mk =>
    match mk with
    | .obj mo =>
        if pyGet mo "name" = J.str "Both Teams to Score" then
          some
            (match iterElems (pyGetD mo "selections" (J.arr [])) with
             | some sels => selPairs sels
             | none => [])
        else none
    | _ => none)).flatten

/-! ## Claim C1 — History Store capacity -/

theorem save_history_step_length {α : Type} (h : List α) (b : α) :
    (save_history_step h b).length =
      (if MAX_HISTORY_ENTRIES ≤ h.length then MAX_HISTORY_ENTRIES else h.length) + 1 := by
  unfold save_history_step
  split <;> simp [List.length_drop]
  omega

theorem history_after_succ (n : Nat) :
    history_after (n + 1) = save_history_step (history_after n) n := by
  unfold history_after
  rw [List.range_succ, List.foldl_append]
  rfl

theorem history_after_length (n : Nat) :
    (history_after n).length = min n (MAX_HISTORY_ENTRIES + 1) := by
  induction n with
  | zero => rfl
  | succ n ih =>
    rw [history_after_succ, save_history_step_length, ih]
    simp only [MAX_HISTORY_ENTRIES]
    split <;> omega

/-- C1: the History Store append (`save_match_summaries`) truncates to the
most recent 100 entries *before* appending, so the write that starts from a
full store leaves `MAX_HISTORY_ENTRIES + 1 = 101` entries: appending 101
batches one at a time to an initially empty store leaves 101 entries, not
100, contradicting the claimed bound (and the cap the source's own
`MAX_HISTORY_ENTRIES` constant and rotation message announce). -/
theorem save_match_summaries_overflows_cap :
    (history_after 101).length = MAX_HISTORY_ENTRIES + 1 := by
  rw [history_after_length]
  rfl

/-! ## Claim C4 — status id extraction -/

/-- A match with the valid status code `0` present in the primary field and
a well-formed score array. -/
def statusZeroMatch : List (String × J) :=
  [("status_id", J.num 0), ("score", J.arr [J.num 9, J.num 7])]

/-- C4 counterexample: with the valid code `0` stored in the primary
`status_id` field, `extract_status_id` does not return it — Python
truthiness makes `0` fall through to the secondary score location. -/
theorem extract_status_id_zero_not_returned :
    jLook statusZeroMatch "status_id" = some (J.num 0) ∧
      extract_status_id statusZeroMatch = J.num 7 ∧ J.num 7 ≠ J.num 0 := by
  decide

/-- C4 (amended): `extract_status_id` checks the primary `status_id` field
first, but through Python truthiness: any nonzero code stored there is
returned, while a falsy primary (absent, `None`, or the valid code `0`)
falls through to the secondary location, index 1 of a 2+-element score
list, with `None` when that is unavailable. -/
theorem extract_status_id_spec (mo : List (String × J)) :
    (∀ n : Int, pyGet mo "status_id" = J.num n → n ≠ 0 →
      extract_status_id mo = J.num n) ∧
    ((pyGet mo "status_id").truthy = false →
      extract_status_id mo =
        (match pyGet mo "score" with
         | J.arr xs => if 1 < xs.length then jIdx xs 1 else J.null
         | _ => J.null)) ∧
    ((pyGet mo "status_id").truthy = false → pyGet mo "score" = J.null →
      extract_status_id mo = J.null) := by
  refine ⟨?_, ?_, ?_⟩
  · intro n hn hnz
    unfold extract_status_id
    rw [hn]
    simp [J.truthy, hnz]
  · intro hf
    simp [extract_status_id, hf]
  · intro hf hs
    simp [extract_status_id, hf, hs]

theorem extract_status_id_spec_witness :
    extract_status_id [("status_id", J.num 2)] = J.num 2 ∧
      extract_status_id statusZeroMatch = J.num 7 :=
  ⟨(extract_status_id_spec [("status_id", J.num 2)]).1 2 (by decide) (by decide),
   ((extract_status_id_spec statusZeroMatch).2.1 (by decide)).trans (by decide)⟩

/-! ## Claim C3 — Payload Accessor totality -/

theorem pyOr_falsy {a b : J} (h : a.truthy = false) : pyOr a b = b := by
  simp [pyOr, h]

theorem pyOr_truthy {a b : J} (h : a.truthy = true) : pyOr a b = a := by
  simp [pyOr, h]

/-- C3: `first_result` is total over every envelope shape; it returns the
first element exactly when the `results` field (or, when that is falsy,
the `result` field) holds a non-empty list, and the empty dict for every
malformed shape: a `None` key, an absent entry, a non-dict envelope, falsy
`results`/`result` fields, or a truthy non-list `results` value. -/
theorem first_result_spec (mp : List (String × J)) (key : J) :
    (key = J.null → first_result mp key = J.obj []) ∧
    (jLook mp (pyStr key) = none → first_result mp key = J.obj []) ∧
    (∀ w, jLook mp (pyStr key) = some w → (∀ kvs, w ≠ J.obj kvs) →
      first_result mp key = J.obj []) ∧
    (∀ kvs, key ≠ J.null → jLook mp (pyStr key) = some (J.obj kvs) →
      (∀ x xs, pyGet kvs "results" = J.arr (x :: xs) → first_result mp key = x) ∧
      ((pyGet kvs "results").truthy = false →
        ∀ x xs, pyGet kvs "result" = J.arr (x :: xs) → first_result mp key = x) ∧
      ((pyGet kvs "results").truthy = false → (pyGet kvs "result").truthy = false →
        first_result mp key = J.obj []) ∧
      (∀ v, pyGet kvs "results" = v → v.truthy = true → (∀ l, v ≠ J.arr l) →
        first_result mp key = J.obj [])) := by
  refine ⟨?_, ?_, ?_, ?_⟩
  · intro hk
    simp [first_result, hk]
  · intro hl
    unfold first_result
    split
    · rfl
    · rw [hl]
  · intro w hw hnd
    unfold first_result
    split
    · rfl
    · rw [hw]
      cases w with
      | obj kvs => exact absurd rfl (hnd kvs)
      | null => rfl
      | bool b => rfl
      | num n => rfl
      | str s => rfl
      | arr xs => rfl
  · intro kvs hk hl
    have base : first_result mp key =
        (match pyOr (pyOr (pyGet kvs "results") (pyGet kvs "result")) (J.arr []) with
         | J.arr (x :: _) => x
         | _ => J.obj []) := by
      unfold first_result
      rw [if_neg hk, hl]
    refine ⟨?_, ?_, ?_, ?_⟩
    · intro x xs hres
      rw [base, hres, pyOr_truthy (b := pyGet kvs "result") (by simp [J.truthy]),
        pyOr_truthy (by simp [J.truthy])]
    · intro hf x xs hres
      rw [base, pyOr_falsy hf, hres, pyOr_truthy (by simp [J.truthy])]
    · intro hf hf2
      rw [base, pyOr_falsy hf, pyOr_falsy hf2]
    · intro v hres hv hnl
      rw [base, hres, pyOr_truthy hv, pyOr_truthy hv]
      cases v with
      | arr l => exact absurd rfl (hnl l)
      | null => simp [J.truthy] at hv
      | bool b => rfl
      | num n => rfl
      | str s => rfl
      | obj kvs2 => rfl

theorem first_result_spec_witness :
    first_result [("7", J.obj [("results", J.arr [J.num 42])])] (J.num 7) = J.num 42 ∧
      first_result [("7", J.obj [("results", J.arr []), ("result", J.arr [J.num 5])])]
        (J.num 7) = J.num 5 ∧
      first_result [("7", J.obj [("results", J.str "odd")])] (J.num 7) = J.obj [] ∧
      first_result [] J.null = J.obj [] :=
  ⟨((first_result_spec [("7", J.obj [("results", J.arr [J.num 42])])] (J.num 7)).2.2.2
      [("results", J.arr [J.num 42])] (by decide) (by decide)).1 (J.num 42) [] (by decide),
   ((first_result_spec [("7", J.obj [("results", J.arr []), ("result", J.arr [J.num 5])])]
        (J.num 7)).2.2.2 [("results", J.arr []), ("result", J.arr [J.num 5])] (by decide)
      (by decide)).2.1 (by decide) (J.num 5) [] (by decide),
   ((first_result_spec [("7", J.obj [("results", J.str "odd")])] (J.num 7)).2.2.2
      [("results", J.str "odd")] (by decide) (by decide)).2.2.2 (J.str "odd") (by decide)
     (by decide) (fun l h => J.noConfusion h),
   (first_result_spec [] J.null).1 rfl⟩

/-! ## Claim C5 — the two in-play subsets -/

theorem statusCount_cons (m : List (String × J)) (ms : List (List (String × J))) (s : Int) :
    statusCount (m :: ms) s =
      (if extract_status_id m = J.num s then 1 else 0) + statusCount ms s := by
  simp only [statusCount, List.filter_cons]
  split <;> simp_all [Nat.add_comm]

theorem indicator_sum_nodup (v : J) :
    ∀ sids : List Int, sids.Nodup →
      ((sids.map (fun s => if v = J.num s then 1 else 0)).sum : Nat) =
        if sids.any (fun s => v = J.num s) then 1 else 0 := by
  intro sids
  induction sids with
  | nil => simp
  | cons s rest ih =>
    intro hnd
    rcases List.nodup_cons.mp hnd with ⟨hs, hrest⟩
    by_cases hv : v = J.num s
    · subst hv
      have hzero : (rest.map (fun t => if s = t then 1 else 0)).sum = 0 := by
        apply List.sum_eq_zero
        intro x hx
        rcases List.mem_map.mp hx with ⟨t, ht, rfl⟩
        have hne : s ≠ t := fun h => hs (h ▸ ht)
        simp [hne]
      simp [J.num.injEq, hzero]
    · simp [hv, ih hrest]

theorem unified_in_play_count_cons (m : List (String × J)) (ms : List (List (String × J))) :
    unified_in_play_count (m :: ms) =
      (if in_play_status_ids.any (fun s => extract_status_id m = J.num s) then 1 else 0) +
        unified_in_play_count ms := by
  unfold unified_in_play_count
  have expand :
      in_play_status_ids.map (statusCount (m :: ms)) =
        (in_play_status_ids.map
            (fun s => (if extract_status_id m = J.num s then 1 else 0) + statusCount ms s)) := by
    apply List.map_congr_left
    intro s _
    exact statusCount_cons m ms s
  rw [expand]
  have split :
      ((in_play_status_ids.map
          (fun s => (if extract_status_id m = J.num s then 1 else 0) + statusCount ms s)).sum) =
        ((in_play_status_ids.map
            (fun s => if extract_status_id m = J.num s then 1 else 0)).sum) +
          ((in_play_status_ids.map (statusCount ms)).sum) := by
    simp [in_play_status_ids]
    omega
  rw [split, indicator_sum_nodup (extract_status_id m) in_play_status_ids (by decide)]

theorem foldl_if_count {α : Type} (p : α → Bool) :
    ∀ (ms : List α) (acc : Nat),
      ms.foldl (fun a m => if p m then a + 1 else a) acc = acc + (ms.filter p).length := by
  intro ms
  induction ms with
  | nil => simp
  | cons m rest ih =>
    intro acc
    rw [List.foldl_cons, List.filter_cons]
    by_cases hm : p m
    · simp only [hm, if_true]
      rw [ih]
      simp
      omega
    · simp only [hm, if_false]
      rw [ih]
      simp [hm]

/-- C5: the program exposes two distinct fixed in-play subsets — the
unified status summary sums the counts of `in_play_status_ids =
[2, 3, 4, 5, 7]`, while `step1_main` (the same set as `STATUS_FILTER` in
`step2.7.py`) counts `[2, 3, 4, 5, 6, 7]` — the subsets differ at status
`6`, and each in-play count equals the number of matches whose extracted
status id lies in the respective subset. -/
theorem in_play_subsets_spec :
    ((6 : Int) ∈ STATUS_FILTER ∧ (6 : Int) ∉ in_play_status_ids) ∧
    (∀ ms : List (List (String × J)),
      unified_in_play_count ms =
        (ms.filter (fun m => in_play_status_ids.any (fun s =>
          extract_status_id m = J.num s))).length) ∧
    (∀ ms : List (List (String × J)),
      step1_in_play_count ms =
        (ms.filter (fun m => STATUS_FILTER.any (fun s =>
          extract_status_id m = J.num s))).length) := by
  refine ⟨by decide, ?_, ?_⟩
  · intro ms
    induction ms with
    | nil => rfl
    | cons m rest ih =>
      rw [unified_in_play_count_cons, ih, List.filter_cons]
      split <;> simp_all [Nat.add_comm]
  · intro ms
    unfold step1_in_play_count
    rw [foldl_if_count]
    simp

/-! ## Claim C2 — Odds Time-Window Selector -/

theorem ptsOf_cons (e : J) (rest : List J) :
    ptsOf (e :: rest) =
      (match entryMinute e with
       | some m => [(m, e)]
       | none => []) ++ ptsOf rest := by
  simp only [ptsOf, ptsRaw, List.filterMap_cons]
  cases e with
  | arr xs =>
    by_cases hlen : 1 < xs.length
    · simp only [entryMinute, hlen, if_true]
      cases hsm : safe_minute (jIdx xs 1) <;> simp [List.filterMap_cons, hsm]
    · simp [entryMinute, hlen]
  | null => simp [entryMinute]
  | bool b => simp [entryMinute]
  | num n => simp [entryMinute]
  | str s => simp [entryMinute]
  | obj kvs => simp [entryMinute]

theorem ptsOf_eq (entries : List J) :
    ptsOf entries =
      (entries.filter (fun e => (entryMinute e).isSome)).map
        (fun e => ((entryMinute e).getD 0, e)) := by
  induction entries with
  | nil => rfl
  | cons e rest ih =>
    rw [ptsOf_cons, List.filter_cons, ih]
    cases hm : entryMinute e <;> simp [hm]

theorem window_filter_eq (entries : List J) :
    ((ptsOf entries).filter (fun p => 3 ≤ p.1 && p.1 ≤ 6)).map Prod.snd =
      entries.filter inWindow := by
  rw [ptsOf_eq, List.filter_map, List.filter_filter, List.map_map]
  have hpred :
      ∀ e ∈ entries,
        (((fun p => 3 ≤ p.1 && p.1 ≤ 6) ∘ fun e => ((entryMinute e).getD 0, e)) e &&
            (entryMinute e).isSome) = inWindow e := by
    intro e _
    cases hm : entryMinute e <;> simp [inWindow, hm]
  rw [List.filter_congr hpred]
  have hmap : ∀ e ∈ entries.filter inWindow,
      (Prod.snd ∘ fun e => ((entryMinute e).getD 0, e)) e = id e := by
    intro e _
    rfl
  rw [List.map_congr_left hmap, List.map_id]

theorem underTen_filter_eq (entries : List J) :
    (ptsOf entries).filter (fun p => p.1 < 10) =
      (entries.filter underTen).map (fun e => ((entryMinute e).getD 0, e)) := by
  rw [ptsOf_eq, List.filter_map, List.filter_filter]
  congr 1
  apply List.filter_congr
  intro e _
  cases hm : entryMinute e <;> simp [underTen, hm]

theorem pyMinBy_le_head {α : Type} (f : α → Nat) :
    ∀ (l : List α) (a : α), f (pyMinBy f a l) ≤ f a := by
  intro l
  induction l with
  | nil => intro a; simp [pyMinBy]
  | cons b bs ih =>
    intro a
    by_cases h : f b < f a
    · simp only [pyMinBy, h, if_true]
      exact le_trans (ih b) (le_of_lt h)
    · simp only [pyMinBy, h, if_false]
      exact ih a

theorem pyMinBy_map {α β : Type} (g : α → β) (f : β → Nat) :
    ∀ (l : List α) (a : α), pyMinBy f (g a) (l.map g) = g (pyMinBy (fun x => f (g x)) a l) := by
  intro l
  induction l with
  | nil => intro a; rfl
  | cons b bs ih =>
    intro a
    by_cases h : f (g b) < f (g a)
    · simp only [List.map_cons, pyMinBy, h, if_true]
      exact ih b
    · simp only [List.map_cons, pyMinBy, h, if_false]
      exact ih a

theorem pyMinBy_congr {α : Type} (f g : α → Nat) :
    ∀ (l : List α) (a : α), f a = g a → (∀ x ∈ l, f x = g x) →
      pyMinBy f a l = pyMinBy g a l := by
  intro l
  induction l with
  | nil => intro a _ _; rfl
  | cons b bs ih =>
    intro a ha hl
    have hb : f b = g b := hl b (by simp)
    have hrest : ∀ x ∈ bs, f x = g x := fun x hx => hl x (by simp [hx])
    simp only [pyMinBy, ha, hb]
    split
    · exact ih b hb hrest
    · exact ih a ha hrest

theorem pyMinBy_split {α : Type} (f : α → Nat) :
    ∀ (l : List α) (a : α), ∃ l1 l2, a :: l = l1 ++ (pyMinBy f a l) :: l2 ∧
      (∀ x ∈ l1, f (pyMinBy f a l) < f x) ∧ (∀ x ∈ l2, f (pyMinBy f a l) ≤ f x) := by
  intro l
  induction l with
  | nil =>
    intro a
    exact ⟨[], [], rfl, by simp, by simp⟩
  | cons b bs ih =>
    intro a
    by_cases h : f b < f a
    · rcases ih b with ⟨l1, l2, hdec, hl1, hl2⟩
      have hmin : pyMinBy f a (b :: bs) = pyMinBy f b bs := by
        simp [pyMinBy, h]
      refine ⟨a :: l1, l2, ?_, ?_, ?_⟩
      · rw [hmin, List.cons_append, ← hdec]
      · intro x hx
        rw [hmin]
        rcases List.mem_cons.mp hx with rfl | hx
        · exact lt_of_le_of_lt (pyMinBy_le_head f bs b) h
        · exact hl1 x hx
      · intro x hx
        rw [hmin]
        exact hl2 x hx
    · rcases ih a with ⟨l1, l2, hdec, hl1, hl2⟩
      have hmin : pyMinBy f a (b :: bs) = pyMinBy f a bs := by
        simp [pyMinBy, h]
      have hab : f a ≤ f b := le_of_not_lt h
      rw [hmin]
      cases l1 with
      | nil =>
        simp only [List.nil_append] at hdec
        injection hdec with h1 h2
        refine ⟨[], b :: bs, ?_, by simp, ?_⟩
        · rw [← h1]
          simp
        · intro x hx
          rw [← h1]
          rcases List.mem_cons.mp hx with rfl | hx
          · exact hab
          · rw [h1]
            exact hl2 x (h2 ▸ hx)
      | cons c l1t =>
        rw [List.cons_append] at hdec
        injection hdec with h1 h2
        refine ⟨a :: b :: l1t, l2, ?_, ?_, ?_⟩
        · rw [List.cons_append, List.cons_append, ← h2]
        · intro x hx
          rcases List.mem_cons.mp hx with rfl | hx
          · exact h1 ▸ hl1 c (by simp)
          · rcases List.mem_cons.mp hx with rfl | hx
            · exact lt_of_lt_of_le (h1 ▸ hl1 c (by simp)) hab
            · exact hl1 x (by simp [hx])
        · exact hl2

theorem inWindow_underTen {e : J} (h : inWindow e = true) : underTen e = true := by
  unfold inWindow at h
  unfold underTen
  cases hm : entryMinute e with
  | none => rw [hm] at h; exact absurd h (by simp)
  | some m =>
    rw [hm] at h
    simp at h
    simp
    omega

theorem entryDist_of_underTen {e : J} (h : underTen e = true) :
    minuteDist ((entryMinute e).getD 0) = entryDist e := by
  unfold underTen at h
  unfold entryDist
  cases hm : entryMinute e with
  | none => rw [hm] at h; exact absurd h (by simp)
  | some m => rfl

/-- C2: the Odds Time-Window Selector (`filter_by_time`, and the identical
module-level `filter_odds_by_time`) discards entries without a leading
integer minute; when entries with minute in the closed window `[3, 6]`
exist it returns exactly those, in input order; otherwise, when entries
with minute `< 10` exist, it returns the single entry closest to `4.5`
(ties broken by first occurrence: strictly closer than everything before
it, at least as close as everything after); otherwise it returns nothing. -/
theorem filter_by_time_spec (entries : List J) :
    (filter_odds_by_time entries = filter_by_time entries) ∧
    (entries.any inWindow = true → filter_by_time entries = entries.filter inWindow) ∧
    (entries.any inWindow = false → entries.any underTen = true →
      ∃ e l1 l2, filter_by_time entries = [e] ∧
        entries.filter underTen = l1 ++ e :: l2 ∧
        (∀ x ∈ l1, entryDist e < entryDist x) ∧
        (∀ x ∈ l2, entryDist e ≤ entryDist x)) ∧
    (entries.any underTen = false → filter_by_time entries = []) := by
  have hW := window_filter_eq entries
  have hU := underTen_filter_eq entries
  have hbody : filter_by_time entries =
      (if (entries.filter inWindow).isEmpty then
        (match (entries.filter underTen).map (fun e => ((entryMinute e).getD 0, e)) with
         | [] => []
         | u :: us => [(pyMinBy (fun p => minuteDist p.1) u us).2])
      else entries.filter inWindow) := by
    simp only [filter_by_time]
    rw [hW, hU]
  refine ⟨rfl, ?_, ?_, ?_⟩
  · intro hany
    have hne : entries.filter inWindow ≠ [] := by
      rcases List.any_eq_true.mp hany with ⟨e, he, hpe⟩
      intro hnil
      have hmem : e ∈ entries.filter inWindow := List.mem_filter.mpr ⟨he, hpe⟩
      rw [hnil] at hmem
      exact absurd hmem (List.not_mem_nil e)
    rw [hbody, if_neg (by simpa using hne)]
  · intro hwin hund
    have hWnil : entries.filter inWindow = [] := by
      apply List.filter_eq_nil_iff.mpr
      intro e he hpe
      exact absurd hpe (by simpa using (List.any_eq_false.mp hwin) e he)
    obtain ⟨e0, rest, hfu⟩ : ∃ e0 rest, entries.filter underTen = e0 :: rest := by
      rcases List.any_eq_true.mp hund with ⟨e, he, hpe⟩
      cases hh : entries.filter underTen with
      | nil =>
        have hmem : e ∈ entries.filter underTen := List.mem_filter.mpr ⟨he, hpe⟩
        rw [hh] at hmem
        exact absurd hmem (List.not_mem_nil e)
      | cons x xs => exact ⟨x, xs, rfl⟩
    have hmemU : ∀ x ∈ e0 :: rest, underTen x = true := by
      intro x hx
      have : x ∈ entries.filter underTen := hfu ▸ hx
      exact (List.mem_filter.mp this).2
    have hval : filter_by_time entries = [pyMinBy entryDist e0 rest] := by
      rw [hbody, if_pos (by simp [hWnil]), hfu, List.map_cons]
      show [(pyMinBy (fun p => minuteDist p.1) ((entryMinute e0).getD 0, e0)
          (rest.map (fun e => ((entryMinute e).getD 0, e)))).2] = [pyMinBy entryDist e0 rest]
      rw [pyMinBy_map (fun e => ((entryMinute e).getD 0, e)) (fun p => minuteDist p.1) rest e0]
      have hcongr :
          pyMinBy (fun x => minuteDist ((entryMinute x).getD 0)) e0 rest =
            pyMinBy entryDist e0 rest := by
        apply pyMinBy_congr
        · exact entryDist_of_underTen (hmemU e0 (by simp))
        · intro x hx
          exact entryDist_of_underTen (hmemU x (by simp [hx]))
      show [(pyMinBy (fun x => minuteDist ((entryMinute x).getD 0)) e0 rest)] =
        [pyMinBy entryDist e0 rest]
      rw [hcongr]
    rcases pyMinBy_split entryDist rest e0 with ⟨l1, l2, hdec, hp1, hp2⟩
    exact ⟨pyMinBy entryDist e0 rest, l1, l2, hval, by rw [hfu, hdec], hp1, hp2⟩
  · intro hund0
    have hUnil : entries.filter underTen = [] := by
      apply List.filter_eq_nil_iff.mpr
      intro e he hpe
      exact absurd hpe (by simpa using (List.any_eq_false.mp hund0) e he)
    have hWnil : entries.filter inWindow = [] := by
      apply List.filter_eq_nil_iff.mpr
      intro e he hpe
      have := inWindow_underTen hpe
      exact absurd this (by simpa using (List.any_eq_false.mp hund0) e he)
    rw [hbody, if_pos (by simp [hWnil]), hUnil]
    rfl

theorem filter_by_time_spec_witness :
    filter_by_time
        [J.arr [J.num 900, J.str "1"], J.arr [J.num 901, J.str "4"],
         J.arr [J.num 902, J.str "8"], J.arr [J.num 903, J.str "12"]] =
      [J.arr [J.num 901, J.str "4"]] ∧
    filter_by_time [J.arr [J.num 900, J.str "15"], J.arr [J.num 901, J.str "20"]] = [] :=
  ⟨((filter_by_time_spec
      [J.arr [J.num 900, J.str "1"], J.arr [J.num 901, J.str "4"],
       J.arr [J.num 902, J.str "8"], J.arr [J.num 903, J.str "12"]]).2.1
      (by decide)).trans (by decide),
   (filter_by_time_spec
      [J.arr [J.num 900, J.str "15"], J.arr [J.num 901, J.str "20"]]).2.2.2 (by decide)⟩

/-! ## Claim C8 — Country Inference -/

/-- C8: for a competition whose lowercased name contains both
`"international"` and `"friendly"`, `infer_country_from_teams` compares the
first table country matched by each side's team name: two different
countries give `"International"`, exactly one side matching gives that
side's country title-cased, both sides matching the same country give that
country, and when neither side matches the generic indicator scan over the
concatenated home+away text returns the first matching table country
title-cased, or `"Unknown"` when no indicator occurs. -/
theorem infer_country_from_teams_spec (md : MatchRow)
    (hif : strIn "international" (pyLower md.competition) = true)
    (hff : strIn "friendly" (pyLower md.competition) = true) :
    (∀ c1 c2, (sideCountries (pyLower md.home_team)).head? = some c1 →
      (sideCountries (pyLower md.away_team)).head? = some c2 → c1 ≠ c2 →
      infer_country_from_teams md = "International") ∧
    (∀ c1, (sideCountries (pyLower md.home_team)).head? = some c1 →
      sideCountries (pyLower md.away_team) = [] →
      infer_country_from_teams md = pyTitle c1) ∧
    (∀ c2, sideCountries (pyLower md.home_team) = [] →
      (sideCountries (pyLower md.away_team)).head? = some c2 →
      infer_country_from_teams md = pyTitle c2) ∧
    (∀ c, (sideCountries (pyLower md.home_team)).head? = some c →
      (sideCountries (pyLower md.away_team)).head? = some c →
      infer_country_from_teams md = pyTitle c) ∧
    (sideCountries (pyLower md.home_team) = [] →
      sideCountries (pyLower md.away_team) = [] →
      ((country_indicators.find? (fun ci => ci.2.any (fun ind =>
          strIn ind (pyLower md.home_team ++ " " ++ pyLower md.away_team))) = none →
        infer_country_from_teams md = "Unknown") ∧
      (∀ ci, country_indicators.find? (fun c => c.2.any (fun ind =>
          strIn ind (pyLower md.home_team ++ " " ++ pyLower md.away_team))) = some ci →
        infer_country_from_teams md = pyTitle ci.1))) := by
  have hbody : infer_country_from_teams md =
      (match sideCountries (pyLower md.home_team), sideCountries (pyLower md.away_team) with
       | h :: _, a :: _ => if h ≠ a then "International" else pyTitle h
       | h :: _, [] => pyTitle h
       | [], a :: _ => pyTitle a
       | [], [] => genericScan (pyLower md.home_team ++ " " ++ pyLower md.away_team)) := by
    unfold infer_country_from_teams
    simp only [hif, hff, Bool.and_self, if_true]
  refine ⟨?_, ?_, ?_, ?_, ?_⟩
  · intro c1 c2 h1 h2 hne
    cases hh : sideCountries (pyLower md.home_team) with
    | nil => rw [hh] at h1; exact absurd h1 (by simp)
    | cons h ht =>
      cases ha : sideCountries (pyLower md.away_team) with
      | nil => rw [ha] at h2; exact absurd h2 (by simp)
      | cons a at_ =>
        rw [hh] at h1
        rw [ha] at h2
        simp at h1 h2
        rw [hbody, hh, ha]
        subst h1
        subst h2
        simp [hne]
  · intro c1 h1 ha
    cases hh : sideCountries (pyLower md.home_team) with
    | nil => rw [hh] at h1; exact absurd h1 (by simp)
    | cons h ht =>
      rw [hh] at h1
      simp at h1
      rw [hbody, hh, ha]
      subst h1
      rfl
  · intro c2 hh h2
    cases ha : sideCountries (pyLower md.away_team) with
    | nil => rw [ha] at h2; exact absurd h2 (by simp)
    | cons a at_ =>
      rw [ha] at h2
      simp at h2
      rw [hbody, hh, ha]
      subst h2
      rfl
  · intro c h1 h2
    cases hh : sideCountries (pyLower md.home_team) with
    | nil => rw [hh] at h1; exact absurd h1 (by simp)
    | cons h ht =>
      cases ha : sideCountries (pyLower md.away_team) with
      | nil => rw [ha] at h2; exact absurd h2 (by simp)
      | cons a at_ =>
        rw [hh] at h1
        rw [ha] at h2
        simp at h1 h2
        rw [hbody, hh, ha]
        subst h1
        subst h2
        simp
  · intro hh ha
    constructor
    · intro hfind
      rw [hbody, hh, ha]
      unfold genericScan
      rw [hfind]
    · intro ci hfind
      rw [hbody, hh, ha]
      unfold genericScan
      rw [hfind]

theorem infer_country_from_teams_spec_witness :
    infer_country_from_teams
        ⟨"International Friendly", none, none, "", "Brazil FC", "Argentina XI"⟩ =
      "International" ∧
    infer_country_from_teams
        ⟨"International Friendly", none, none, "", "Brazil U23", "Mystery XI"⟩ = "Brazil" :=
  ⟨(infer_country_from_teams_spec
      ⟨"International Friendly", none, none, "", "Brazil FC", "Argentina XI"⟩
      (by decide) (by decide)).1 "brazil" "argentina" (by decide) (by decide) (by decide),
   ((infer_country_from_teams_spec
      ⟨"International Friendly", none, none, "", "Brazil U23", "Mystery XI"⟩
      (by decide) (by decide)).2.1 "brazil" (by decide) (by decide)).trans (by decide)⟩

/-! ## Claim C6 — unparseable environment values -/

/-- C6 counterexample: with the wind field absent (so it fails to parse),
`extract_environment` resolves `wind_value` to `None` but still derives the
wind category `"Calm"` from the defaulted value `0`. -/
theorem extract_environment_defaults_wind_calm :
    (extract_environment (J.obj [])).map EnvParsed.wind_value = some none ∧
    (extract_environment (J.obj [])).map EnvParsed.wind_description = some "Calm" := by
  decide

/-- C6 (amended): an unparseable (or absent) wind resolves `wind_value` to
`None` and an unparseable temperature resolves `temperature_value` to
`None`; `process_environment_like_step2` then derives no wind category and
reports the raw value or `"Unknown"`, and derives no Fahrenheit value — but
`extract_environment` still derives a wind category from the defaulted
value `0`, namely `"Calm"`. -/
theorem environment_unparseable_spec :
    (∀ m p, extract_environment m = some p →
      (envMatch (pyStr p.wind) = none → p.wind_value = none ∧ p.wind_description = "Calm") ∧
      (envMatch (pyStr p.temperature) = none → p.temperature_value = none)) ∧
    (∀ env s2 eo, env = J.obj eo → process_environment_like_step2 env = some s2 →
      (windDigitCond (pyGet eo "wind") = false →
        s2.wind_description = none ∧
        s2.wind = (if (pyGet eo "wind").truthy then pyStr (pyGet eo "wind") else "Unknown")) ∧
      (tempDigitCond (pyGet eo "temperature") = false →
        s2.temperature =
          (if (pyGet eo "temperature").truthy then pyStr (pyGet eo "temperature")
           else "Unknown"))) := by
  constructor
  · intro m p h
    simp only [extract_environment, Option.bind_eq_bind', Option.bind_eq_some,
      Option.pure_def, Option.some.injEq] at h
    rcases h with ⟨mo, hmo, eo, heo, ⟨tv, tu⟩, htv, ⟨wv, wu⟩, hwv, ⟨pv, pu⟩, hpv,
      ⟨hv, hu⟩, hhv, hp⟩
    subst hp
    constructor
    · intro hwfail
      simp only at hwfail
      simp only [parseNumUnit, hwfail] at hwv
      injection hwv with hwv
      injection hwv with hwv1 hwv2
      subst hwv1
      refine ⟨rfl, ?_⟩
      simp only [Option.getD]
      by_cases hms : strIn "m/s" (pyLower (pyStr (pyGetD eo "wind" (J.str "")))) = true
      · rw [if_pos hms]
        decide
      · rw [if_neg hms]
        decide
    · intro htfail
      simp only at htfail
      simp only [parseNumUnit, htfail] at htv
      injection htv with htv
      injection htv with htv1 htv2
      exact htv1.symm
  · intro env s2 eo heq h
    subst heq
    simp only [process_environment_like_step2, asObj, Option.bind_eq_bind',
      Option.some_bind, Option.pure_def] at h
    by_cases ht : tempDigitCond (pyGet eo "temperature") = true <;>
      by_cases hw : windDigitCond (pyGet eo "wind") = true
    · simp only [ht, hw, if_true, Option.bind_eq_some, Option.some.injEq] at h
      rcases h with ⟨tc, htc, mph, hmph, hp⟩
      subst hp
      exact ⟨fun hwf => absurd hw (by simp [hwf]), fun htf => absurd ht (by simp [htf])⟩
    · simp only [ht, hw, if_true, Bool.false_eq_true, if_false, Option.bind_eq_some,
        Option.some.injEq] at h
      rcases h with ⟨tc, htc, hp⟩
      subst hp
      exact ⟨fun _ => ⟨rfl, rfl⟩, fun htf => absurd ht (by simp [htf])⟩
    · simp only [ht, hw, if_true, Bool.false_eq_true, if_false, Option.bind_eq_some,
        Option.some.injEq] at h
      rcases h with ⟨mph, hmph, hp⟩
      subst hp
      exact ⟨fun hwf => absurd hw (by simp [hwf]), fun _ => rfl⟩
    · simp only [ht, hw, Bool.false_eq_true, if_false, Option.some.injEq] at h
      subst h
      exact ⟨fun _ => ⟨rfl, rfl⟩, fun _ => rfl⟩

/-- A match whose wind text has no leading numeric chunk. -/
def windyMatch : J := J.obj [("environment", J.obj [("wind", J.str "strong breeze")])]

/-- What `extract_environment` produces on `windyMatch`. -/
def windyParsed : EnvParsed :=
  ⟨J.obj [("wind", J.str "strong breeze")], J.null, "Unknown", J.null, none, none,
   J.str "strong breeze", none, none, J.null, none, none, J.null, none, none, "Calm"⟩

/-- What `process_environment_like_step2` produces on a non-numeric wind. -/
def gustyParsed : Step2Env :=
  ⟨J.obj [("wind", J.str "gusty")], J.null, "Unknown (None)", "Unknown", "gusty", none,
   "Unknown hPa", "Unknown%"⟩

theorem environment_unparseable_spec_witness :
    (windyParsed.wind_value = none ∧ windyParsed.wind_description = "Calm") ∧
      gustyParsed.wind_description = none ∧ gustyParsed.wind = "gusty" :=
  have h1 : extract_environment windyMatch = some windyParsed := by decide
  have h2 : process_environment_like_step2 (J.obj [("wind", J.str "gusty")]) =
      some gustyParsed := by decide
  ⟨(environment_unparseable_spec.1 windyMatch windyParsed h1).1 (by decide),
   ((environment_unparseable_spec.2 (J.obj [("wind", J.str "gusty")]) gustyParsed
        [("wind", J.str "gusty")] rfl h2).1 (by decide)).1,
   (((environment_unparseable_spec.2 (J.obj [("wind", J.str "gusty")]) gustyParsed
        [("wind", J.str "gusty")] rfl h2).1 (by decide)).2).trans (by decide)⟩


theorem jLook_assocSet (l : List (String × J)) (k : String) (v : J) (k2 : String) :
    jLook (assocSet l k v) k2 = if k2 = k then some v else jLook l k2 := by
  induction l with
  | nil =>
    by_cases hk : k2 = k
    · subst hk
      simp [assocSet, jLook]
    · simp [assocSet, jLook, hk, Ne.symm hk]
  | cons p rest ih =>
    obtain ⟨k1, v1⟩ := p
    by_cases h1 : k1 = k
    · subst h1
      by_cases h2 : k2 = k1
      · subst h2
        simp [assocSet, jLook]
      · simp [assocSet, jLook, h2, Ne.symm h2]
    · by_cases h2 : k2 = k1
      · subst h2
        simp [assocSet, jLook, h1]
      · simp [assocSet, jLook, h1, h2, Ne.symm h2, ih]

theorem jLook_foldl_assocSet (ps : List (String × J)) :
    ∀ (acc : List (String × J)) (k : String),
      jLook (ps.foldl (fun a p => assocSet a p.1 p.2) acc) k =
        match ps.reverse.find? (fun p => p.1 = k) with
        | some p => some p.2
        | none => jLook acc k := by
  induction ps with
  | nil => intro acc k; rfl
  | cons p ps ih =>
    intro acc k
    rw [List.foldl_cons, ih, List.reverse_cons, List.find?_append]
    cases hfl : ps.reverse.find? (fun q => q.1 = k) with
    | some q => simp [Option.or]
    | none =>
      simp only [Option.or, jLook_assocSet]
      by_cases hk : k = p.1
      · simp [List.find?, hk]
      · simp [List.find?, Ne.symm hk, hk]

theorem selFold_some :
    ∀ (sels : List J) (acc out : List (String × J)), selFold acc sels = some out →
      out = (selPairs sels).foldl (fun a p => assocSet a p.1 p.2) acc := by
  intro sels
  induction sels with
  | nil =>
    intro acc out h
    simp only [selFold, Option.some.injEq] at h
    simp [selPairs, ← h]
  | cons sel rest ih =>
    intro acc out h
    cases sel with
    | obj so =>
      simp only [selFold, asObj, Option.bind_eq_bind', Option.some_bind] at h
      cases hname : pyGetD so "name" (J.str "") with
      | str s =>
        simp only [hname, Option.some_bind] at h
        have hrec2 := ih _ _ h
        by_cases hyn : (pyLower s = "yes" || pyLower s = "no") = true
        · rw [if_pos hyn] at hrec2
          have hyn2 : pyLower s = "yes" ∨ pyLower s = "no" := by simpa using hyn
          have hpairs : selPairs (J.obj so :: rest) =
              (pyLower s, pyGet so "odds") :: selPairs rest := by
            simp [selPairs, List.filterMap_cons, hname, hyn2]
          rw [hpairs, List.foldl_cons]
          exact hrec2
        · rw [if_neg hyn] at hrec2
          have hyn2 : ¬(pyLower s = "yes" ∨ pyLower s = "no") := by simpa using hyn
          have hpairs : selPairs (J.obj so :: rest) = selPairs rest := by
            simp [selPairs, List.filterMap_cons, hname, hyn2]
          rw [hpairs]
          exact hrec2
      | null => simp only [hname] at h; simp at h
      | bool b => simp only [hname] at h; simp at h
      | num n => simp only [hname] at h; simp at h
      | arr xs => simp only [hname] at h; simp at h
      | obj kvs => simp only [hname] at h; simp at h
    | null => simp [selFold, asObj] at h
    | bool b => simp [selFold, asObj] at h
    | num n => simp [selFold, asObj] at h
    | str s => simp [selFold, asObj] at h
    | arr xs => simp [selFold, asObj] at h

theorem bttsFold_some :
    ∀ (mkts : List J) (acc out : List (String × J)), bttsFold acc mkts = some out →
      out = (marketPairs mkts).foldl (fun a p => assocSet a p.1 p.2) acc := by
  intro mkts
  induction mkts with
  | nil =>
    intro acc out h
    simp only [bttsFold, Option.some.injEq] at h
    simp [marketPairs, ← h]
  | cons mk rest ih =>
    intro acc out h
    cases mk with
    | obj mo =>
      simp only [bttsFold, asObj, Option.bind_eq_bind', Option.some_bind] at h
      by_cases hbt : pyGet mo "name" = J.str "Both Teams to Score"
      · rw [if_pos (by simp [hbt])] at h
        simp only [Option.bind_eq_bind', Option.bind_eq_some] at h
        rcases h with ⟨sels, hsels, acc2, hacc2, hrec⟩
        have hpairs : marketPairs (J.obj mo :: rest) = selPairs sels ++ marketPairs rest := by
          simp [marketPairs, List.filterMap_cons, hbt, hsels]
        rw [hpairs, List.foldl_append, ← selFold_some sels acc acc2 hacc2]
        exact ih _ _ hrec
      · rw [if_neg (by simp [hbt])] at h
        have hpairs : marketPairs (J.obj mo :: rest) = marketPairs rest := by
          simp [marketPairs, List.filterMap_cons, hbt]
        rw [hpairs]
        exact ih _ _ h
    | null => simp [bttsFold, asObj] at h
    | bool b => simp [bttsFold, asObj] at h
    | num n => simp [bttsFold, asObj] at h
    | str s => simp [bttsFold, asObj] at h
    | arr xs => simp [bttsFold, asObj] at h

theorem selPairs_keys (sels : List J) :
    ∀ p ∈ selPairs sels, p.1 = "yes" ∨ p.1 = "no" := by
  intro p hp
  rcases List.mem_filterMap.mp hp with ⟨sel, _, hsel⟩
  cases sel with
  | obj so =>
    cases hname : pyGetD so "name" (J.str "") with
    | str s =>
      simp only [hname] at hsel
      by_cases hyn : (pyLower s = "yes" || pyLower s = "no") = true
      · rw [if_pos hyn] at hsel
        injection hsel with hsel
        subst hsel
        simpa using hyn
      · rw [if_neg hyn] at hsel
        exact absurd hsel (by simp)
    | null => simp only [hname] at hsel; exact absurd hsel (by simp)
    | bool b => simp only [hname] at hsel; exact absurd hsel (by simp)
    | num n => simp only [hname] at hsel; exact absurd hsel (by simp)
    | arr xs => simp only [hname] at hsel; exact absurd hsel (by simp)
    | obj kvs => simp only [hname] at hsel; exact absurd hsel (by simp)
  | null => exact absurd hsel (by simp)
  | bool b => exact absurd hsel (by simp)
  | num n => exact absurd hsel (by simp)
  | str s => exact absurd hsel (by simp)
  | arr xs => exact absurd hsel (by simp)

theorem marketPairs_keys (mkts : List J) :
    ∀ p ∈ marketPairs mkts, p.1 = "yes" ∨ p.1 = "no" := by
  intro p hp
  rcases List.mem_flatten.mp hp with ⟨ps, hps, hpin⟩
  rcases List.mem_filterMap.mp hps with ⟨mk, _, hmk⟩
  cases mk with
  | obj mo =>
    have hmk2 : (if pyGet mo "name" = J.str "Both Teams to Score" then
        some
          (match iterElems (pyGetD mo "selections" (J.arr [])) with
           | some sels => selPairs sels
           | none => [])
        else none) = some ps := hmk
    by_cases hbt : pyGet mo "name" = J.str "Both Teams to Score"
    · rw [if_pos hbt] at hmk2
      injection hmk2 with hmk2
      subst hmk2
      revert hpin
      cases iterElems (pyGetD mo "selections" (J.arr [])) with
      | some sels => exact fun hpin => selPairs_keys sels p hpin
      | none => intro hpin; exact absurd hpin (by simp)
    · rw [if_neg hbt] at hmk2
      exact absurd hmk2 (by simp)
  | null => exact absurd hmk (by simp)
  | bool b => exact absurd hmk (by simp)
  | num n => exact absurd hmk (by simp)
  | str s => exact absurd hmk (by simp)
  | arr xs => exact absurd hmk (by simp)

/-- C10: the odds block always carries a `both_teams_to_score` mapping: its
entry for a key is the odds of the most recent selection whose lowercased
name equals that key (`yes`/`no`) inside any market named
`"Both Teams to Score"` in the stub's `betting.markets` list; only the
keys `yes`/`no` ever appear, and the mapping is empty when no such market
or selections exist. -/
theorem btts_market_spec (m : J) (od : OddsData) (mo bo : List (String × J)) (mkts : List J)
    (hmo : asObj m = some mo)
    (hbo : asObj (pyGetD mo "betting" (J.obj [])) = some bo)
    (hmk : iterElems (pyGetD bo "markets" (J.arr [])) = some mkts)
    (h : extract_odds m = some od) :
    (∀ k, jLook od.both_teams_to_score k =
        ((marketPairs mkts).reverse.find? (fun p => p.1 = k)).map (fun p => p.2)) ∧
    (∀ k v, jLook od.both_teams_to_score k = some v → k = "yes" ∨ k = "no") ∧
    (marketPairs mkts = [] → od.both_teams_to_score = []) := by
  simp only [extract_odds, Option.bind_eq_bind', Option.bind_eq_some, Option.pure_def,
    Option.some.injEq] at h
  rcases h with ⟨mo2, hmo2, ro, hro, eu, heu, asia, hasia, bs, hbs, bo2, hbo2, mkts2, hmk2,
    btts, hbtts, hp⟩
  rw [hmo] at hmo2
  injection hmo2 with hmo2
  subst hmo2
  rw [hbo] at hbo2
  injection hbo2 with hbo2
  subst hbo2
  rw [hmk] at hmk2
  injection hmk2 with hmk2
  subst hmk2
  have hbv : od.both_teams_to_score = btts := by rw [← hp]
  have hfold := bttsFold_some mkts [] btts hbtts
  refine ⟨?_, ?_, ?_⟩
  · intro k
    rw [hbv, hfold, jLook_foldl_assocSet]
    cases hfl : (marketPairs mkts).reverse.find? (fun p => p.1 = k) with
    | some q => rfl
    | none => rfl
  · intro k v hkv
    rw [hbv, hfold, jLook_foldl_assocSet] at hkv
    cases hfl : (marketPairs mkts).reverse.find? (fun p => p.1 = k) with
    | some q =>
      have hq : q ∈ marketPairs mkts := by
        have := List.mem_of_find?_eq_some hfl
        exact List.mem_reverse.mp this
      have hqk : q.1 = k := by simpa using List.find?_some hfl
      exact hqk ▸ marketPairs_keys mkts q hq
    | none =>
      rw [hfl] at hkv
      exact absurd hkv (by simp [jLook])
  · intro h0
    rw [hbv, hfold, h0]
    rfl

/-- A stub carrying one `Both Teams to Score` market. -/
def bttsMatch : J :=
  J.obj [("betting", J.obj [("markets", J.arr [J.obj
    [("name", J.str "Both Teams to Score"),
     ("selections", J.arr [J.obj [("name", J.str "Yes"), ("odds", J.num 2)],
                           J.obj [("name", J.str "No"), ("odds", J.num 3)]])]])])]

/-- The odds block `extract_odds` builds for `bttsMatch`. -/
def bttsOdds : OddsData :=
  ⟨none, [("yes", J.num 2), ("no", J.num 3)], [], none, none, J.obj []⟩

theorem btts_market_spec_witness :
    jLook bttsOdds.both_teams_to_score "yes" = some (J.num 2) ∧
      jLook bttsOdds.both_teams_to_score "draw" = none :=
  have h : extract_odds bttsMatch = some bttsOdds := by decide
  have hspec := btts_market_spec bttsMatch bttsOdds
    [("betting", J.obj [("markets", J.arr [J.obj
      [("name", J.str "Both Teams to Score"),
       ("selections", J.arr [J.obj [("name", J.str "Yes"), ("odds", J.num 2)],
                             J.obj [("name", J.str "No"), ("odds", J.num 3)]])]])])]
    [("markets", J.arr [J.obj
      [("name", J.str "Both Teams to Score"),
       ("selections", J.arr [J.obj [("name", J.str "Yes"), ("odds", J.num 2)],
                             J.obj [("name", J.str "No"), ("odds", J.num 3)]])]])]
    [J.obj [("name", J.str "Both Teams to Score"),
            ("selections", J.arr [J.obj [("name", J.str "Yes"), ("odds", J.num 2)],
                                  J.obj [("name", J.str "No"), ("odds", J.num 3)]])]]
    (by decide) (by decide) (by decide) h
  ⟨(hspec.1 "yes").trans (by decide), (hspec.1 "draw").trans (by decide)⟩

/-! ## Claim C7 — unresolved team names in the merger -/

set_option maxRecDepth 16000 in
/-- C7 counterexample: a stub whose home team resolves to nothing and that
carries no inline `home_name` is merged to a summary whose home name is
`None`, not the placeholder `"Unknown Home Team"` the spec promises (that
string never occurs in `step2.7.py` at all). -/
theorem merge_unresolved_name_not_placeholder :
    (merge_and_summarize "t" (J.obj [("id", J.str "m1")]) (J.obj [])).map
        (fun s => s.home.name) = some J.null ∧
      (J.null : J) ≠ J.str "Unknown Home Team" := by
  constructor
  · decide
  · decide

/-- C7 (amended): when the team side table yields no truthy `name` for the
home side and the stub carries no truthy inline `home_name`, the merged
summary's home name is the stub's (falsy) `home_name` value — `None` when
absent — and never a placeholder: the merged dict always carries the
`home_team` key, so `extract_summary_fields`' `"Unknown"` default cannot
fire, and the string `"Unknown Home Team"` exists only in `step1_json.py`'s
comprehensive-breakdown view, not in the merger. -/
theorem merge_unresolved_name_spec (now : String) (live payload : J)
    (lo po : List (String × J)) (st : SideTables) (r : Resolved) (s : MatchSummary)
    (hlo : asObj live = some lo) (hpo : asObj payload = some po)
    (hst : sideTablesOf po = some st) (hr : resolveParts lo st = some r)
    (hname : (pyGet r.ho "name").truthy = false)
    (hinline : (pyGet lo "home_name").truthy = false)
    (hm : merge_and_summarize now live payload = some s) :
    s.home.name = pyGet lo "home_name" ∧
      s.home.name ≠ J.str "Unknown Home Team" ∧ s.home.name ≠ J.str "Unknown" := by
  simp only [merge_and_summarize, merged_match, Option.bind_eq_bind', Option.bind_eq_some,
    Option.pure_def, Option.some.injEq] at hm
  rcases hm with ⟨mm, ⟨lo2, hlo2, po2, hpo2, st2, hst2, r2, hr2, hmm⟩, hs⟩
  rw [hlo] at hlo2
  injection hlo2 with hlo2
  subst hlo2
  rw [hpo] at hpo2
  injection hpo2 with hpo2
  subst hpo2
  rw [hst] at hst2
  injection hst2 with hst2
  subst hst2
  rw [hr] at hr2
  injection hr2 with hr2
  subst hr2
  subst hmm
  simp only [extract_summary_fields, Option.bind_eq_bind', Option.bind_eq_some,
    Option.pure_def, Option.some.injEq] at hs
  rcases hs with ⟨mo, hmo, od, hod, env, henv, evs, hevs, hs⟩
  have hmo2 : some (mergedEntries lo r) = some mo := hmo
  injection hmo2 with hmo2
  subst hmo2
  subst hs
  have hlook : jLook (mergedEntries lo r) "home_team" =
      some (pyOr (pyGet r.ho "name") (pyGet lo "home_name")) := rfl
  have h1 : pyGetD (mergedEntries lo r) "home_team" (J.str "Unknown") =
      pyGet lo "home_name" := by
    rw [pyGetD, hlook, Option.getD_some, pyOr_falsy hname]
  refine ⟨h1, ?_, ?_⟩
  · intro he
    have he2 : pyGetD (mergedEntries lo r) "home_team" (J.str "Unknown") =
        J.str "Unknown Home Team" := he
    rw [h1] at he2
    rw [he2] at hinline
    exact absurd hinline (by decide)
  · intro he
    have he2 : pyGetD (mergedEntries lo r) "home_team" (J.str "Unknown") =
        J.str "Unknown" := he
    rw [h1] at he2
    rw [he2] at hinline
    exact absurd hinline (by decide)

set_option maxRecDepth 16000 in
theorem merge_unresolved_name_spec_witness :
    (merge_and_summarize "t" (J.obj [("id", J.str "m1")]) (J.obj [])).map
        (fun s => s.home.name) ≠ some (J.str "Unknown Home Team") := by
  cases hm : merge_and_summarize "t" (J.obj [("id", J.str "m1")]) (J.obj []) with
  | none => simp
  | some s =>
    have h := merge_unresolved_name_spec "t" (J.obj [("id", J.str "m1")]) (J.obj [])
      [("id", J.str "m1")] [] ⟨[], [], [], [], []⟩
      ⟨[], [], [], [], J.null, J.null, J.null, [], J.obj []⟩ s rfl rfl rfl rfl
      (by decide) (by decide) hm
    simp only [Option.map_some', ne_eq, Option.some.injEq]
    exact h.2.1

/-! ## Claim C9 — the competition grouper -/

theorem find?_map_key (f : String × String × List (String × MatchRow) →
      String × String × List (String × MatchRow))
    (hf : ∀ g, (f g).1 = g.1) (c : String)
    (gs : List (String × String × List (String × MatchRow))) :
    (gs.map f).find? (fun g => g.1 = c) = (gs.find? (fun g => g.1 = c)).map f := by
  induction gs with
  | nil => rfl
  | cons g rest ih =>
    by_cases h : g.1 = c
    · rw [List.map_cons, List.find?_cons_of_pos _ (by simp [hf g, h]),
        List.find?_cons_of_pos _ (by simp [h]), Option.map_some']
    · rw [List.map_cons, List.find?_cons_of_neg _ (by simp [hf g, h]),
        List.find?_cons_of_neg _ (by simp [h]), ih]

theorem addToGroups_find? (gs : List (String × String × List (String × MatchRow)))
    (it : String × MatchRow) (c : String) :
    (addToGroups gs it).find? (fun g => g.1 = c) =
      if it.2.competition = c then
        match gs.find? (fun g => g.1 = c) with
        | some g => some (g.1, g.2.1, g.2.2 ++ [it])
        | none => some (it.2.competition, groupCountry it.2, [it])
      else gs.find? (fun g => g.1 = c) := by
  unfold addToGroups
  by_cases hany : gs.any (fun g => g.1 = it.2.competition) = true
  · rw [if_pos hany,
      find?_map_key _ (fun g => by by_cases hg : g.1 = it.2.competition <;> simp [hg]) c]
    by_cases hc : it.2.competition = c
    · subst hc
      cases hfind : gs.find? (fun g => g.1 = it.2.competition) with
      | none =>
        exfalso
        rcases List.any_eq_true.mp hany with ⟨g, hg, hp⟩
        exact List.find?_eq_none.mp hfind g hg hp
      | some g =>
        have hg1 : g.1 = it.2.competition := by simpa using List.find?_some hfind
        rw [if_pos rfl, Option.map_some', if_pos hg1]
    · rw [if_neg hc]
      cases hfind : gs.find? (fun g => g.1 = c) with
      | none => rfl
      | some g =>
        have hg1 : g.1 = c := by simpa using List.find?_some hfind
        have hgne : ¬ g.1 = it.2.competition := fun h => hc (h ▸ hg1)
        rw [Option.map_some', if_neg hgne]
  · rw [if_neg hany, List.find?_append]
    have hany2 : gs.any (fun g => g.1 = it.2.competition) = false :=
      Bool.eq_false_iff.mpr hany
    by_cases hc : it.2.competition = c
    · subst hc
      have hnone : gs.find? (fun g => g.1 = it.2.competition) = none :=
        List.find?_eq_none.mpr (fun g hg => by
          have := List.any_eq_false.mp hany2 g hg
          simpa using this)
      rw [hnone, Option.none_or, List.find?_cons_of_pos _ (by simp), if_pos rfl]
    · rw [if_neg hc, List.find?_cons_of_neg _ (by simp [hc]), List.find?_nil, Option.or_none]

theorem foldl_addToGroups_find? (ms : List (String × MatchRow))
    (gs : List (String × String × List (String × MatchRow))) (c : String) :
    (ms.foldl addToGroups gs).find? (fun g => g.1 = c) =
      match gs.find? (fun g => g.1 = c), ms.filter (fun it => it.2.competition = c) with
      | some g, l => some (g.1, g.2.1, g.2.2 ++ l)
      | none, [] => none
      | none, it :: l => some (c, groupCountry it.2, it :: l) := by
  induction ms generalizing gs with
  | nil =>
    simp only [List.foldl_nil, List.filter_nil]
    cases h : gs.find? (fun g => g.1 = c) with
    | none => rfl
    | some g => simp
  | cons it rest ih =>
    rw [List.foldl_cons, ih (addToGroups gs it), addToGroups_find?]
    by_cases hc : it.2.competition = c
    · rw [if_pos hc, List.filter_cons_of_pos (by simp [hc])]
      cases hfind : gs.find? (fun g => g.1 = c) with
      | none => simp [hc]
      | some g => simp
    · rw [if_neg hc, List.filter_cons_of_neg (by simp [hc])]

theorem addToGroups_keys_nodup (gs : List (String × String × List (String × MatchRow)))
    (it : String × MatchRow)
    (h : (gs.map (fun g => g.1)).Nodup) :
    ((addToGroups gs it).map (fun g => g.1)).Nodup := by
  unfold addToGroups
  by_cases hany : gs.any (fun g => g.1 = it.2.competition) = true
  · rw [if_pos hany, List.map_map]
    have hcomp : (fun g : String × String × List (String × MatchRow) => g.1) ∘
        (fun g : String × String × List (String × MatchRow) =>
          if g.1 = it.2.competition then (g.1, g.2.1, g.2.2 ++ [it]) else g) =
        fun g => g.1 := by
      funext g
      by_cases hg : g.1 = it.2.competition <;> simp [hg]
    rw [hcomp]
    exact h
  · rw [if_neg hany, List.map_append]
    have hany2 : gs.any (fun g => g.1 = it.2.competition) = false :=
      Bool.eq_false_iff.mpr hany
    have hnotin : it.2.competition ∉ gs.map (fun g => g.1) := by
      intro hmem
      rcases List.mem_map.mp hmem with ⟨g, hg, hkey⟩
      have hng := List.any_eq_false.mp hany2 g hg
      simp [hkey] at hng
    rw [List.nodup_append]
    refine ⟨h, List.nodup_singleton _, ?_⟩
    intro a ha hb
    simp only [List.map_cons, List.map_nil, List.mem_singleton] at hb
    exact hnotin (hb ▸ ha)

theorem foldl_addToGroups_nodup (ms : List (String × MatchRow)) :
    ∀ gs, ((gs.map (fun g => g.1)).Nodup) →
      (((ms.foldl addToGroups gs).map (fun g => g.1)).Nodup) := by
  induction ms with
  | nil => intro gs h; simpa using h
  | cons it rest ih => intro gs h; exact ih _ (addToGroups_keys_nodup gs it h)

theorem competitionGroups_keys_nodup (ms : List (String × MatchRow)) :
    ((competitionGroups ms).map (fun g => g.1)).Nodup :=
  foldl_addToGroups_nodup ms [] (by simp)

theorem find?_of_mem_nodupKeys (l : List (String × String × List (String × MatchRow)))
    (h : (l.map (fun g => g.1)).Nodup)
    (g : String × String × List (String × MatchRow)) (hg : g ∈ l) :
    l.find? (fun g2 => g2.1 = g.1) = some g := by
  induction l with
  | nil => cases hg
  | cons a rest ih =>
    rw [List.map_cons, List.nodup_cons] at h
    rcases List.mem_cons.mp hg with hga | hga
    · subst hga
      exact List.find?_cons_of_pos _ (by simp)
    · have hne : ¬ a.1 = g.1 := by
        intro he
        exact h.1 (he ▸ List.mem_map.mpr ⟨g, hga, rfl⟩)
      rw [List.find?_cons_of_neg _ (by simp [hne])]
      exact ih h.2 hga

/-- C9: the grouper's output is the bucket list of `competition_groups`
sorted by the key `(country or "Unknown", competition)`; inside every
group the `(match_id, data)` items are ordered by the key
`(status_order.get(status_id, 99), match_id)` — the rank map
`\x7b2: 1, 3: 2, 4: 3, 5: 4, 6: 5, 7: 6\x7d` with unknown statuses ranked 99
(last) and ties broken by ascending match id — each group holds exactly
the input items of its competition, and the group's country is the one
computed from the first input item of that competition. -/
theorem sort_matches_by_competition_and_time_spec (ms : List (String × MatchRow)) :
    sort_matches_by_competition_and_time ms = (sortedComps ms).map (fun g => (g.1, g.2.2)) ∧
    List.Pairwise groupLe (sortedComps ms) ∧
    (∀ g ∈ sortedComps ms,
      List.Pairwise matchItemLe g.2.2 ∧
      g.2.2.Perm (ms.filter (fun it => it.2.competition = g.1)) ∧
      ∃ it rest, ms.filter (fun it => it.2.competition = g.1) = it :: rest ∧
        g.2.1 = groupCountry it.2) ∧
    ∀ it ∈ ms, ∃ g, g ∈ sortedComps ms ∧ g.1 = it.2.competition ∧ it ∈ g.2.2 := by
  refine ⟨rfl, List.sorted_insertionSort _ _, ?_, ?_⟩
  · intro g hg
    unfold sortedComps at hg
    have hg2 : g ∈ (competitionGroups ms).map
        (fun g => (g.1, g.2.1, List.insertionSort matchItemLe g.2.2)) :=
      (List.perm_insertionSort groupLe _).mem_iff.mp hg
    rcases List.mem_map.mp hg2 with ⟨g0, hg0, hfg⟩
    have hfind : (competitionGroups ms).find? (fun g2 => g2.1 = g0.1) = some g0 :=
      find?_of_mem_nodupKeys _ (competitionGroups_keys_nodup ms) g0 hg0
    unfold competitionGroups at hfind
    have hmaster2 := foldl_addToGroups_find? ms [] g0.1
    cases hfil : ms.filter (fun it => it.2.competition = g0.1) with
    | nil =>
      simp only [List.find?_nil, hfil] at hmaster2
      exact absurd (hfind.symm.trans hmaster2) (by simp)
    | cons it l =>
      simp only [List.find?_nil, hfil] at hmaster2
      have heq2 : some g0 = some (g0.1, groupCountry it.2, it :: l) :=
        hfind.symm.trans hmaster2
      injection heq2 with heq
      have h21 : g0.2.1 = groupCountry it.2 := congrArg (fun x => x.2.1) heq
      have h22 : g0.2.2 = it :: l := congrArg (fun x => x.2.2) heq
      subst hfg
      refine ⟨List.sorted_insertionSort _ _, ?_, ⟨it, l, hfil, h21⟩⟩
      exact (List.perm_insertionSort matchItemLe g0.2.2).trans (by rw [h22, hfil])
  · intro it hit
    have hfil : it ∈ ms.filter (fun it2 => it2.2.competition = it.2.competition) :=
      List.mem_filter.mpr ⟨hit, by simp⟩
    cases hfe : ms.filter (fun it2 => it2.2.competition = it.2.competition) with
    | nil => rw [hfe] at hfil; cases hfil
    | cons it0 l =>
      have hmaster : (competitionGroups ms).find? (fun g2 => g2.1 = it.2.competition) =
          some (it.2.competition, groupCountry it0.2, it0 :: l) := by
        unfold competitionGroups
        have h := foldl_addToGroups_find? ms [] it.2.competition
        simp only [List.find?_nil, hfe] at h
        exact h
      have hg0mem : (it.2.competition, groupCountry it0.2, it0 :: l) ∈ competitionGroups ms :=
        List.mem_of_find?_eq_some hmaster
      refine ⟨(it.2.competition, groupCountry it0.2,
          List.insertionSort matchItemLe (it0 :: l)), ?_, rfl, ?_⟩
      · unfold sortedComps
        exact (List.perm_insertionSort groupLe _).mem_iff.mpr
          (List.mem_map.mpr ⟨_, hg0mem, rfl⟩)
      · exact (List.perm_insertionSort matchItemLe _).mem_iff.mpr (hfe ▸ hfil)
